import Mathlib

/-!
Verification of the statistics loader of the Flowtime repository
(src/services/statistics.rs).

The loader reads an XML event stream and aggregates `<day>` elements into
`Day` records, driven by a stack-based element state machine.  The XML
tokenizer and the GLib date/time library are external capabilities: the
tokenizer is modelled by the `XmlEvent` list fed to the loader, and ISO-8601
parsing is a parameter `pIso : String → Option DateTime` of every function
that needs it.  Everything else is translated directly from the source.
-/

set_option maxRecDepth 4096

namespace Flowtime

/-- Modelled from the spec: `glib::DateTime` internals are an external
capability (src does not contain them).  `same_day` in the source only
inspects `day_of_year`, `month` and `year`; the `usec` field stands for the
remaining sub-day resolution of a real timestamp, unused by `same_day`. -/
structure DateTime where
  year : Int
  month : Int
  dayOfYear : Int
  usec : Int
deriving DecidableEq

/-- Modelled from the spec: `models::Day` (its file is not under src/).
Per §4.1 it is constructible from `(date, worktime, breaktime)` and exposes
read accessors for the three fields; construction cannot fail. -/
structure Day where
  date : DateTime
  worktime : Nat
  breaktime : Nat
deriving DecidableEq

/-- `fn same_day(one: &glib::DateTime, other: &glib::DateTime) -> bool`
(statistics.rs, lines 222-226). -/
def same_day (one other : DateTime) : Bool :=
  one.dayOfYear == other.dayOfYear
  && one.month == other.month
  && one.year == other.year

/-- `enum StatisticsElement` (statistics.rs, lines 57-64). -/
inductive StatisticsElement where
  | Day
  | Worktime
  | Breaktime
  | Statistics
  | None
deriving DecidableEq

/-- `StatisticsElement::from_name` (statistics.rs, lines 67-75).  The Rust
`match` on string literals is rendered as an if-chain with the same
first-match semantics. -/
def StatisticsElement.from_name (name : String) : Option StatisticsElement :=
  if name = "day" then some .Day
  else if name = "worktime" then some .Worktime
  else if name = "breaktime" then some .Breaktime
  else if name = "statistics" then some .Statistics
  else none

/-- One attribute of an XML start tag (`xml::attribute::OwnedAttribute`,
restricted to the two fields the source reads). -/
structure Attribute where
  local_name : String
  value : String
deriving DecidableEq

/-- The `xml::reader::XmlEvent` variants the source distinguishes.  The real
`EndElement` carries a name which the source ignores (`EndElement { .. }`),
so it is omitted; every remaining variant (whitespace, comments, CData, and
`Err` results) falls into the source's catch-all no-op arms and is collapsed
into `other`. -/
inductive XmlEvent where
  | startDocument
  | startElement (local_name : String) (attributes : List Attribute)
  | characters (content : String)
  | endElement
  | endDocument
  | other
deriving DecidableEq

/-- `content.parse::<u32>()`: Rust's `u32::from_str` accepts an optional
leading `+`, then one or more ASCII digits, and fails on anything else or on
overflow past `u32::MAX`. -/
def parseU32 (s : String) : Option Nat :=
  let ds := match s.data with
            | '+' :: rest => rest
            | l => l
  if ds = [] then none
  else if ds.all Char.isDigit then
    let v := ds.foldl (fun acc c => acc * 10 + (c.toNat - '0'.toNat)) 0
    if v < 4294967296 then some v else none
  else none

/-- The mutable state of one `load_days` call: the local variables
`worktime`, `breaktime`, `date`, `element_stack` (statistics.rs, lines
110-114) together with the object fields `all_days` and `today`
(`imp::Statistics`, lines 23-28; `today` is a `OnceCell`, i.e. a set-at-most-
once option).  `assert_failed` records whether the
`assert!(element_stack.is_empty())` at `EndDocument` (line 198) fired. -/
structure LoaderState where
  worktime : Nat
  breaktime : Nat
  date : Option DateTime
  element_stack : List StatisticsElement
  all_days : List Day
  today : Option Day
  assert_failed : Bool
deriving DecidableEq

/-- The `OnceCell::set` guarded by `same_day` in the `EndElement`/`Day` arm
(statistics.rs, lines 183-185): the cell is written only when it is empty
and the finalized day matches the reference date. -/
def todayUpd (now : DateTime) (t : Option Day) (d : Day) : Option Day :=
  if same_day d.date now && t.isNone then some d else t

/-- One iteration of the `for event in reader` loop of `load_days`
(statistics.rs, lines 116-203), as a state transformer. -/
def processEvent (pIso : String → Option DateTime) (now : DateTime)
    (s : LoaderState) (e : XmlEvent) : LoaderState :=
  match e with
  | .startDocument => s
  | .startElement name attributes =>
    match StatisticsElement.from_name name with
    | some .Day =>
      let s := { s with element_stack := .Day :: s.element_stack }
      match attributes.find? (fun a => a.local_name == "date") with
      | some day_date => { s with date := pIso day_date.value }
      | none => s
    | some node => { s with element_stack := node :: s.element_stack }
    | none => s
  | .characters content =>
    match s.element_stack.headD .None with
    | .Worktime =>
      match parseU32 content with
      | some count => { s with worktime := count }
      | none => s
    | .Breaktime =>
      match parseU32 content with
      | some count => { s with breaktime := count }
      | none => s
    | _ => s
  | .endElement =>
    match s.element_stack with
    | [] => s
    | current :: rest =>
      match current with
      | .Day =>
        match s.date with
        | none => { s with element_stack := rest }
        | some day_date =>
          let day : Day := ⟨day_date, s.worktime, s.breaktime⟩
          { s with
            element_stack := rest,
            today := todayUpd now s.today day,
            all_days := s.all_days ++ [day],
            worktime := 0,
            breaktime := 0,
            date := none }
      | _ => { s with element_stack := rest }
  | .endDocument =>
    { s with assert_failed := s.assert_failed || !s.element_stack.isEmpty }
  | .other => s

/-- The whole event loop of `load_days`. -/
def processEvents (pIso : String → Option DateTime) (now : DateTime)
    (s : LoaderState) (events : List XmlEvent) : LoaderState :=
  events.foldl (processEvent pIso now) s

/-- The object fields of `imp::Statistics` that `load_days` reads and
writes (`all_days`, `today`); `productive_day` is never touched by the
loader and is omitted. -/
structure StatisticsObj where
  all_days : List Day
  today : Option Day
deriving DecidableEq

/-- The loader's local state at the top of `load_days`: fresh accumulators
and stack, the object's persistent `all_days` and `today`. -/
def initLoader (obj : StatisticsObj) : LoaderState :=
  { worktime := 0
    breaktime := 0
    date := none
    element_stack := []
    all_days := obj.all_days
    today := obj.today
    assert_failed := false }

/-- `Statistics::load_days` (statistics.rs, lines 97-219): run the event
loop, then the post-parse fallback (lines 205-210): if no `today` was
designated, synthesize `Day::new(&today, 0, 0)`, designate it and append
it. -/
def load_days (pIso : String → Option DateTime) (now : DateTime)
    (obj : StatisticsObj) (events : List XmlEvent) : StatisticsObj :=
  let s := processEvents pIso now (initLoader obj) events
  if s.today.isNone then
    let t : Day := ⟨now, 0, 0⟩
    { all_days := s.all_days ++ [t], today := some t }
  else
    { all_days := s.all_days, today := s.today }

/-- The final loader state of a `load_days` call (used to inspect the
element stack and the end-of-document assertion). -/
def loadFinal (pIso : String → Option DateTime) (now : DateTime)
    (obj : StatisticsObj) (events : List XmlEvent) : LoaderState :=
  processEvents pIso now (initLoader obj) events

/-- The event stream the XML reader produces for a document whose element
content is `body`: a `StartDocument`, the element/character events, and an
`EndDocument`. -/
def docEvents (body : List XmlEvent) : List XmlEvent :=
  XmlEvent.startDocument :: body ++ [XmlEvent.endDocument]

/-- The parsed date of a `day` start tag: the value of its first `date`
attribute, if that value parses as ISO-8601 (mirrors lines 125-131 of the
source). -/
def dayStartDate (pIso : String → Option DateTime) (e : XmlEvent) :
    Option DateTime :=
  match e with
  | .startElement name attributes =>
    if name = "day" then
      (attributes.find? (fun a => a.local_name == "date")).bind
        (fun a => pIso a.value)
    else none
  | _ => none

/-- All parsed `day` dates of an event stream, in document order. -/
def parsedDates (pIso : String → Option DateTime)
    (events : List XmlEvent) : List DateTime :=
  events.filterMap (dayStartDate pIso)

/-- `true` when the event is the start tag of a `day` element. -/
def isDayStart (e : XmlEvent) : Bool :=
  match e with
  | .startElement name _ => name = "day"
  | _ => false

/-- An event list containing no `day` start tags. -/
def dayFree (events : List XmlEvent) : Bool :=
  events.all (fun e => !isDayStart e)

/-- Well-formed element content: a properly nested, balanced sequence of
start/end element events with interspersed character data (forest shape). -/
inductive Balanced : List XmlEvent → Prop where
  | nil : Balanced []
  | text (s : String) {rest : List XmlEvent} :
      Balanced rest → Balanced (XmlEvent.characters s :: rest)
  | elem (name : String) (attributes : List Attribute)
      {inner rest : List XmlEvent} :
      Balanced inner → Balanced rest →
      Balanced (XmlEvent.startElement name attributes ::
        inner ++ XmlEvent.endElement :: rest)

/-- Well-formed element content in which no `day` element is nested inside
another `day` element: each `day` element's content is day-free. -/
inductive NoNestedDay : List XmlEvent → Prop where
  | nil : NoNestedDay []
  | text (s : String) {rest : List XmlEvent} :
      NoNestedDay rest → NoNestedDay (XmlEvent.characters s :: rest)
  | dayElem (attributes : List Attribute) {inner rest : List XmlEvent} :
      Balanced inner → dayFree inner = true → NoNestedDay rest →
      NoNestedDay (XmlEvent.startElement "day" attributes ::
        inner ++ XmlEvent.endElement :: rest)
  | otherElem (name : String) (attributes : List Attribute)
      {inner rest : List XmlEvent} :
      name ≠ "day" → NoNestedDay inner → NoNestedDay rest →
      NoNestedDay (XmlEvent.startElement name attributes ::
        inner ++ XmlEvent.endElement :: rest)

/-- Simulation relation for unknown-element transparency: two loader states
that agree on every component the day aggregation reads, where the second
stack may carry one extra `Statistics` tag at the bottom (the tag the
unknown element's end event popped early in the first run). -/
def SimRel (s1 s2 : LoaderState) : Prop :=
  s1.worktime = s2.worktime ∧ s1.breaktime = s2.breaktime ∧
  s1.date = s2.date ∧ s1.all_days = s2.all_days ∧ s1.today = s2.today ∧
  (s1.element_stack = s2.element_stack ∨
    s2.element_stack = s1.element_stack ++ [.Statistics])

/-- A concrete timestamp: calendar day (2024, May, day-of-year 122). -/
def dtA : DateTime := ⟨2024, 5, 122, 0⟩

/-- The same calendar day as `dtA`, later within the day. -/
def dtB : DateTime := ⟨2024, 5, 122, 5⟩

/-- The same calendar day as `dtA` and `dtB` (a reference clock). -/
def dtRef : DateTime := ⟨2024, 5, 122, 99⟩

/-- A different calendar day (a reference clock matching no test date). -/
def dtOther : DateTime := ⟨2025, 1, 10, 0⟩

/-- A concrete instantiation of the external ISO-8601 parser: recognizes
the attribute values "A" and "B". -/
def cIso : String → Option DateTime := fun s =>
  if s = "A" then some dtA
  else if s = "B" then some dtB
  else none

/-- A well-formed document body: a `day` element nested inside another
`day` element, both with parsable dates. -/
def docNested : List XmlEvent :=
  [.startElement "day" [⟨"date", "A"⟩],
   .startElement "day" [⟨"date", "B"⟩],
   .endElement, .endElement]

/-- Two sibling `day` elements with parsable dates. -/
def docTwoDays : List XmlEvent :=
  [.startElement "day" [⟨"date", "A"⟩], .endElement,
   .startElement "day" [⟨"date", "B"⟩], .endElement]

/-- A `statistics` root holding an unknown element (with a `worktime`
child) next to a valid `day` element. -/
def docUnknownElem : List XmlEvent :=
  [.startElement "statistics" [],
   .startElement "foo" [],
   .startElement "worktime" [],
   .characters "99",
   .endElement, .endElement,
   .startElement "day" [⟨"date", "A"⟩],
   .endElement, .endElement]

/-- The same document with the unknown element (and its content) removed. -/
def docPlainDay : List XmlEvent :=
  [.startElement "statistics" [],
   .startElement "day" [⟨"date", "A"⟩],
   .endElement, .endElement]

/-- A `statistics` root with one `day` whose `worktime` content does not
parse as a non-negative integer. -/
def docWorktimeAbc : List XmlEvent :=
  [.startElement "statistics" [],
   .startElement "day" [⟨"date", "A"⟩],
   .startElement "worktime" [],
   .characters "abc",
   .endElement, .endElement, .endElement]

/-- A `statistics` root where a `worktime` element is a sibling of a `day`
element rather than its child. -/
def docStrayWorktime : List XmlEvent :=
  [.startElement "statistics" [],
   .startElement "worktime" [],
   .characters "42",
   .endElement,
   .startElement "day" [⟨"date", "A"⟩],
   .endElement, .endElement]

/-- A `statistics` root where a `breaktime` element is a sibling of a
`day` element rather than its child. -/
def docStrayBreaktime : List XmlEvent :=
  [.startElement "statistics" [],
   .startElement "breaktime" [],
   .characters "55",
   .endElement,
   .startElement "day" [⟨"date", "A"⟩],
   .endElement, .endElement]

theorem processEvents_nil (pIso : String → Option DateTime) (now : DateTime)
    (s : LoaderState) : processEvents pIso now s [] = s := rfl

theorem processEvents_cons (pIso : String → Option DateTime) (now : DateTime)
    (s : LoaderState) (e : XmlEvent) (l : List XmlEvent) :
    processEvents pIso now s (e :: l) =
      processEvents pIso now (processEvent pIso now s e) l := rfl

theorem processEvents_append (pIso : String → Option DateTime)
    (now : DateTime) (s : LoaderState) (l₁ l₂ : List XmlEvent) :
    processEvents pIso now s (l₁ ++ l₂) =
      processEvents pIso now (processEvents pIso now s l₁) l₂ :=
  List.foldl_append _ _ _ _

theorem tail_suffix_of_suffix_cons {α : Type _} {l m : List α} {a : α}
    (h : l <:+ a :: m) : l.tail <:+ m := by
  rcases List.suffix_cons_iff.mp h with rfl | h
  · exact List.suffix_refl _
  · exact (List.tail_suffix l).trans h

theorem pe_startDocument (pIso : String → Option DateTime) (now : DateTime)
    (s : LoaderState) : processEvent pIso now s .startDocument = s := rfl

theorem pe_otherEvent (pIso : String → Option DateTime) (now : DateTime)
    (s : LoaderState) : processEvent pIso now s .other = s := rfl

theorem pe_endDocument (pIso : String → Option DateTime) (now : DateTime)
    (s : LoaderState) :
    processEvent pIso now s .endDocument =
      { s with assert_failed :=
          s.assert_failed || !s.element_stack.isEmpty } := rfl

theorem pe_chars_worktime (pIso : String → Option DateTime) (now : DateTime)
    (s : LoaderState) (c : String) {k : Nat}
    (htop : s.element_stack.headD .None = .Worktime)
    (hk : parseU32 c = some k) :
    processEvent pIso now s (.characters c) = { s with worktime := k } := by
  simp only [processEvent, htop, hk]

theorem pe_chars_breaktime (pIso : String → Option DateTime) (now : DateTime)
    (s : LoaderState) (c : String) {k : Nat}
    (htop : s.element_stack.headD .None = .Breaktime)
    (hk : parseU32 c = some k) :
    processEvent pIso now s (.characters c) = { s with breaktime := k } := by
  simp only [processEvent, htop, hk]

theorem pe_chars_parse_fail (pIso : String → Option DateTime)
    (now : DateTime) (s : LoaderState) (c : String)
    (hk : parseU32 c = none) :
    processEvent pIso now s (.characters c) = s := by
  cases htop : s.element_stack.headD .None <;>
    simp only [processEvent, htop, hk]

theorem pe_characters_frame (pIso : String → Option DateTime)
    (now : DateTime) (s : LoaderState) (c : String) :
    (processEvent pIso now s (.characters c)).date = s.date ∧
    (processEvent pIso now s (.characters c)).element_stack =
      s.element_stack ∧
    (processEvent pIso now s (.characters c)).all_days = s.all_days ∧
    (processEvent pIso now s (.characters c)).today = s.today ∧
    (processEvent pIso now s (.characters c)).assert_failed =
      s.assert_failed := by
  simp only [processEvent]
  split <;> first
    | exact ⟨rfl, rfl, rfl, rfl, rfl⟩
    | (split <;> exact ⟨rfl, rfl, rfl, rfl, rfl⟩)

theorem pe_characters_top_none (pIso : String → Option DateTime)
    (now : DateTime) (s : LoaderState) (c : String)
    (h : s.element_stack.headD .None ≠ .Worktime)
    (h' : s.element_stack.headD .None ≠ .Breaktime) :
    processEvent pIso now s (.characters c) = s := by
  cases htop : s.element_stack.headD .None with
  | Worktime => exact absurd htop h
  | Breaktime => exact absurd htop h'
  | Day => simp only [processEvent, htop]
  | Statistics => simp only [processEvent, htop]
  | None => simp only [processEvent, htop]

theorem pe_start_frame (pIso : String → Option DateTime) (now : DateTime)
    (s : LoaderState) (n : String) (a : List Attribute) :
    (processEvent pIso now s (.startElement n a)).all_days = s.all_days ∧
    (processEvent pIso now s (.startElement n a)).today = s.today ∧
    (processEvent pIso now s (.startElement n a)).worktime = s.worktime ∧
    (processEvent pIso now s (.startElement n a)).breaktime = s.breaktime ∧
    (processEvent pIso now s (.startElement n a)).assert_failed =
      s.assert_failed := by
  simp only [processEvent]
  split <;> first
    | exact ⟨rfl, rfl, rfl, rfl, rfl⟩
    | (split <;> exact ⟨rfl, rfl, rfl, rfl, rfl⟩)

theorem pe_start_stack (pIso : String → Option DateTime) (now : DateTime)
    (s : LoaderState) (n : String) (a : List Attribute) :
    (processEvent pIso now s (.startElement n a)).element_stack =
      s.element_stack ∨
    ∃ node, (processEvent pIso now s (.startElement n a)).element_stack =
      node :: s.element_stack := by
  simp only [processEvent]
  split <;> first
    | exact Or.inl rfl
    | exact Or.inr ⟨_, rfl⟩
    | (split <;> exact Or.inr ⟨_, rfl⟩)

theorem from_name_day {n : String}
    (h : StatisticsElement.from_name n = some .Day) : n = "day" := by
  unfold StatisticsElement.from_name at h
  split_ifs at h <;> simp_all

theorem pe_start_unrec (pIso : String → Option DateTime) (now : DateTime)
    (s : LoaderState) {n : String} (a : List Attribute)
    (hfn : StatisticsElement.from_name n = none) :
    processEvent pIso now s (.startElement n a) = s := by
  simp [processEvent, hfn]

theorem pe_start_push (pIso : String → Option DateTime) (now : DateTime)
    (s : LoaderState) {n : String} {node : StatisticsElement}
    (a : List Attribute)
    (hfn : StatisticsElement.from_name n = some node) (hnd : node ≠ .Day) :
    processEvent pIso now s (.startElement n a) =
      { s with element_stack := node :: s.element_stack } := by
  cases node <;> first
    | exact absurd rfl hnd
    | simp [processEvent, hfn]

theorem pe_start_not_day (pIso : String → Option DateTime) (now : DateTime)
    (s : LoaderState) {n : String} (a : List Attribute) (hn : n ≠ "day") :
    (processEvent pIso now s (.startElement n a)).date = s.date ∧
    ((processEvent pIso now s (.startElement n a)).element_stack =
        s.element_stack ∨
      ∃ node, node ≠ .Day ∧
        (processEvent pIso now s (.startElement n a)).element_stack =
          node :: s.element_stack) := by
  cases hfn : StatisticsElement.from_name n with
  | none =>
    rw [pe_start_unrec pIso now s a hfn]
    exact ⟨rfl, Or.inl rfl⟩
  | some node =>
    have hnd : node ≠ .Day := fun hc => hn (from_name_day (hc ▸ hfn))
    rw [pe_start_push pIso now s a hfn hnd]
    exact ⟨rfl, Or.inr ⟨node, hnd, rfl⟩⟩

theorem pe_start_day_no_attr (pIso : String → Option DateTime)
    (now : DateTime) (s : LoaderState) {a : List Attribute}
    (h : a.find? (fun x => x.local_name == "date") = none) :
    processEvent pIso now s (.startElement "day" a) =
      { s with element_stack := .Day :: s.element_stack } := by
  simp only [processEvent]
  simp [StatisticsElement.from_name, h]

theorem pe_start_day_attr (pIso : String → Option DateTime)
    (now : DateTime) (s : LoaderState) {a : List Attribute} {x : Attribute}
    (h : a.find? (fun x => x.local_name == "date") = some x) :
    processEvent pIso now s (.startElement "day" a) =
      { s with element_stack := .Day :: s.element_stack,
               date := pIso x.value } := by
  simp only [processEvent]
  simp [StatisticsElement.from_name, h]

theorem pe_end_stack (pIso : String → Option DateTime) (now : DateTime)
    (s : LoaderState) :
    (processEvent pIso now s .endElement).element_stack =
      s.element_stack.tail ∧
    (processEvent pIso now s .endElement).assert_failed =
      s.assert_failed := by
  simp only [processEvent]
  split
  · rename_i heq
    rw [heq]
    exact ⟨rfl, rfl⟩
  · rename_i cur rest heq
    rw [heq]
    split
    · split <;> exact ⟨rfl, rfl⟩
    · exact ⟨rfl, rfl⟩

theorem pe_end_nil (pIso : String → Option DateTime) (now : DateTime)
    (s : LoaderState) (h : s.element_stack = []) :
    processEvent pIso now s .endElement = s := by
  simp only [processEvent]
  split
  · rfl
  · rename_i cur rest heq
    rw [h] at heq
    cases heq

theorem pe_end_cons_other (pIso : String → Option DateTime) (now : DateTime)
    (s : LoaderState) {c : StatisticsElement} {rest : List StatisticsElement}
    (h : s.element_stack = c :: rest) (hc : c ≠ .Day) :
    processEvent pIso now s .endElement =
      { s with element_stack := rest } := by
  simp only [processEvent]
  split
  · rename_i heq
    rw [h] at heq
    cases heq
  · rename_i cur r heq
    rw [h] at heq
    injection heq with h1 h2
    subst h1
    subst h2
    cases c <;> first
      | exact absurd rfl hc
      | rfl

theorem pe_end_day_none (pIso : String → Option DateTime) (now : DateTime)
    (s : LoaderState) {rest : List StatisticsElement}
    (h : s.element_stack = .Day :: rest) (hd : s.date = none) :
    processEvent pIso now s .endElement =
      { s with element_stack := rest } := by
  simp only [processEvent]
  split
  · rename_i heq
    rw [h] at heq
    cases heq
  · rename_i cur r heq
    rw [h] at heq
    injection heq with h1 h2
    subst h1
    subst h2
    simp [hd]

theorem pe_end_day_some (pIso : String → Option DateTime) (now : DateTime)
    (s : LoaderState) {rest : List StatisticsElement} {d : DateTime}
    (h : s.element_stack = .Day :: rest) (hd : s.date = some d) :
    processEvent pIso now s .endElement =
      { s with
        element_stack := rest,
        today := todayUpd now s.today ⟨d, s.worktime, s.breaktime⟩,
        all_days := s.all_days ++ [⟨d, s.worktime, s.breaktime⟩],
        worktime := 0,
        breaktime := 0,
        date := none } := by
  simp only [processEvent]
  split
  · rename_i heq
    rw [h] at heq
    cases heq
  · rename_i cur r heq
    rw [h] at heq
    injection heq with h1 h2
    subst h1
    subst h2
    simp [hd]

theorem foldl_todayUpd_some (now : DateTime) (t : Day) (l : List Day) :
    l.foldl (todayUpd now) (some t) = some t := by
  induction l with
  | nil => rfl
  | cons d l ih => simpa [todayUpd] using ih

theorem foldl_todayUpd_none (now : DateTime) (l : List Day) :
    l.foldl (todayUpd now) none = l.find? (fun d => same_day d.date now) := by
  induction l with
  | nil => rfl
  | cons d l ih =>
    cases h : same_day d.date now <;>
      simp [todayUpd, h, List.find?_cons, ih, foldl_todayUpd_some]

theorem stack_suffix (pIso : String → Option DateTime) (now : DateTime)
    {F : List XmlEvent} (hF : Balanced F) (s : LoaderState) :
    (processEvents pIso now s F).element_stack <:+ s.element_stack ∧
    (processEvents pIso now s F).assert_failed = s.assert_failed := by
  induction hF generalizing s with
  | nil => exact ⟨List.suffix_refl _, rfl⟩
  | text c _ ih =>
    rw [processEvents_cons]
    obtain ⟨_, hstk, _, _, hassert⟩ := pe_characters_frame pIso now s c
    obtain ⟨ih1, ih2⟩ := ih (processEvent pIso now s (.characters c))
    exact ⟨hstk ▸ ih1, hassert ▸ ih2⟩
  | elem name attrs hinner hrest ihi ihr =>
    rw [processEvents_append, processEvents_cons, processEvents_cons]
    set s1 := processEvent pIso now s (.startElement name attrs) with hs1
    set s2 := processEvents pIso now s1 _ with hs2
    set s3 := processEvent pIso now s2 .endElement with hs3
    obtain ⟨ihi1, ihi2⟩ := ihi s1
    obtain ⟨ihr1, ihr2⟩ := ihr s3
    obtain ⟨he1, he2⟩ := pe_end_stack pIso now s2
    obtain ⟨_, _, _, _, hsa⟩ := pe_start_frame pIso now s name attrs
    constructor
    · refine ihr1.trans ?_
      rw [he1]
      rcases pe_start_stack pIso now s name attrs with hps | ⟨node, hps⟩
      · rw [← hs1] at hps
        rw [hps] at ihi1
        exact (List.tail_suffix _).trans ihi1
      · rw [← hs1] at hps
        rw [hps] at ihi1
        exact tail_suffix_of_suffix_cons ihi1
    · rw [ihr2, he2, ihi2, hsa]

theorem pe_end_date_none (pIso : String → Option DateTime) (now : DateTime)
    (s : LoaderState) (hd : s.date = none) :
    processEvent pIso now s .endElement =
      { s with element_stack := s.element_stack.tail } := by
  cases hstk : s.element_stack with
  | nil =>
    rw [pe_end_nil pIso now s hstk]
    show s = { s with element_stack := [] }
    rw [← hstk]
  | cons c r =>
    show _ = { s with element_stack := r }
    cases c with
    | Day => exact pe_end_day_none pIso now s hstk hd
    | Worktime => exact pe_end_cons_other pIso now s hstk (fun hc => by cases hc)
    | Breaktime => exact pe_end_cons_other pIso now s hstk (fun hc => by cases hc)
    | Statistics => exact pe_end_cons_other pIso now s hstk (fun hc => by cases hc)
    | None => exact pe_end_cons_other pIso now s hstk (fun hc => by cases hc)

theorem dayFree_cons {e : XmlEvent} {l : List XmlEvent} :
    dayFree (e :: l) = true ↔ isDayStart e = false ∧ dayFree l = true := by
  simp [dayFree, List.all_cons]

theorem dayFree_append {l₁ l₂ : List XmlEvent} :
    dayFree (l₁ ++ l₂) = true ↔ dayFree l₁ = true ∧ dayFree l₂ = true := by
  simp [dayFree, List.all_append]

theorem isDayStart_false_of_ne {n : String} {a : List Attribute}
    (hn : n ≠ "day") : isDayStart (.startElement n a) = false := by
  simp [isDayStart, hn]

theorem ne_day_of_isDayStart_false {n : String} {a : List Attribute}
    (h : isDayStart (.startElement n a) = false) : n ≠ "day" := by
  simp [isDayStart] at h
  exact h

/-- Processing a balanced, day-free event sequence from a state with no
captured date never finalizes a `Day`: `all_days`, `today` are unchanged,
the date stays `none`, and the stack only loses elements. -/
theorem process_dayfree (pIso : String → Option DateTime) (now : DateTime)
    {F : List XmlEvent} (hF : Balanced F) :
    ∀ s : LoaderState, dayFree F = true → s.date = none →
      (processEvents pIso now s F).all_days = s.all_days ∧
      (processEvents pIso now s F).today = s.today ∧
      (processEvents pIso now s F).date = none ∧
      (processEvents pIso now s F).element_stack <:+ s.element_stack := by
  induction hF with
  | nil => exact fun s _ hd => ⟨rfl, rfl, hd, List.suffix_refl _⟩
  | text c _ ih =>
    intro s hdf hd
    rw [processEvents_cons]
    obtain ⟨hdate, hstk, hall, htod, _⟩ := pe_characters_frame pIso now s c
    obtain ⟨ih1, ih2, ih3, ih4⟩ :=
      ih (processEvent pIso now s (.characters c))
        (dayFree_cons.mp hdf).2 (hdate.trans hd)
    exact ⟨ih1.trans hall, ih2.trans htod, ih3, hstk ▸ ih4⟩
  | elem name attrs hinner hrest ihi ihr =>
    intro s hdf hd
    rw [processEvents_append, processEvents_cons, processEvents_cons]
    obtain ⟨hdf1, hdf2⟩ := dayFree_append.mp hdf
    obtain ⟨hds, hdfi⟩ := dayFree_cons.mp hdf1
    obtain ⟨_, hdfr⟩ := dayFree_cons.mp hdf2
    have hn : name ≠ "day" := ne_day_of_isDayStart_false hds
    set s1 := processEvent pIso now s (.startElement name attrs) with hs1
    obtain ⟨hsdate, hsstk⟩ := pe_start_not_day pIso now s attrs hn
    obtain ⟨hsall, hstod, _, _, _⟩ := pe_start_frame pIso now s name attrs
    obtain ⟨hi1, hi2, hi3, hi4⟩ := ihi s1 hdfi (hsdate.trans hd)
    set s2 := processEvents pIso now s1 _ with hs2
    rw [pe_end_date_none pIso now s2 hi3]
    set s3 : LoaderState := { s2 with element_stack := s2.element_stack.tail }
      with hs3
    obtain ⟨hr1, hr2, hr3, hr4⟩ := ihr s3 hdfr hi3
    have hstack3 : s3.element_stack <:+ s.element_stack := by
      rcases hsstk with hps | ⟨node, _, hps⟩
      · rw [← hs1] at hps
        rw [hps] at hi4
        exact ((List.tail_suffix _).trans hi4)
      · rw [← hs1] at hps
        rw [hps] at hi4
        exact tail_suffix_of_suffix_cons hi4
    refine ⟨?_, ?_, hr3, hr4.trans hstack3⟩
    · rw [hr1]
      show s2.all_days = s.all_days
      rw [hi1]
      exact hsall
    · rw [hr2]
      show s2.today = s.today
      rw [hi2]
      exact hstod


/-- Processing a balanced, day-free event sequence from a state whose stack
is `pre ++ Day :: rst` (no other `Day` tags) with captured date `some d`
either keeps the pending `Day` tag (phase one: nothing finalized) or
finalizes exactly one `Day` with date `d` when an end event pops the
pending tag early (phase two). -/
theorem process_dayfree_dated (pIso : String → Option DateTime)
    (now : DateTime) {F : List XmlEvent} (hF : Balanced F) :
    ∀ (s : LoaderState) (pre rst : List StatisticsElement) (d : DateTime),
      dayFree F = true → s.date = some d →
      s.element_stack = pre ++ .Day :: rst →
      .Day ∉ pre → .Day ∉ rst →
      (∃ pre', pre' <:+ pre ∧
        (processEvents pIso now s F).element_stack = pre' ++ .Day :: rst ∧
        (processEvents pIso now s F).date = some d ∧
        (processEvents pIso now s F).all_days = s.all_days ∧
        (processEvents pIso now s F).today = s.today) ∨
      (∃ w b,
        (processEvents pIso now s F).date = none ∧
        (processEvents pIso now s F).all_days =
          s.all_days ++ [⟨d, w, b⟩] ∧
        (processEvents pIso now s F).today =
          todayUpd now s.today ⟨d, w, b⟩ ∧
        (processEvents pIso now s F).element_stack <:+ rst) := by
  induction hF with
  | nil =>
    intro s pre rst d _ hd hstk _ _
    exact Or.inl ⟨pre, List.suffix_refl _, hstk, hd, rfl, rfl⟩
  | text c _ ih =>
    intro s pre rst d hdf hd hstk hpre hrst
    rw [processEvents_cons]
    obtain ⟨hdate, hstk2, hall, htod, _⟩ := pe_characters_frame pIso now s c
    rcases ih (processEvent pIso now s (.characters c)) pre rst d
        (dayFree_cons.mp hdf).2 (hdate.trans hd) (hstk2.trans hstk)
        hpre hrst with
      ⟨pre', h1, h2, h3, h4, h5⟩ | ⟨w, b, h1, h2, h3, h4⟩
    · rw [hall] at h4
      rw [htod] at h5
      exact Or.inl ⟨pre', h1, h2, h3, h4, h5⟩
    · rw [hall] at h2
      rw [htod] at h3
      exact Or.inr ⟨w, b, h1, h2, h3, h4⟩
  | elem name attrs hinner hrest ihi ihr =>
    intro s pre rst d hdf hd hstk hpre hrst
    rw [processEvents_append, processEvents_cons, processEvents_cons]
    obtain ⟨hdf1, hdf2⟩ := dayFree_append.mp hdf
    obtain ⟨hds, hdfi⟩ := dayFree_cons.mp hdf1
    obtain ⟨_, hdfr⟩ := dayFree_cons.mp hdf2
    have hn : name ≠ "day" := ne_day_of_isDayStart_false hds
    set s1 := processEvent pIso now s (.startElement name attrs) with hs1
    obtain ⟨hsdate, hsstk⟩ := pe_start_not_day pIso now s attrs hn
    obtain ⟨hsall, hstod, _, _, _⟩ := pe_start_frame pIso now s name attrs
    rw [← hs1] at hsdate hsstk hsall hstod
    have hmain : ∃ pre₁, s1.element_stack = pre₁ ++ .Day :: rst ∧
        .Day ∉ pre₁ ∧
        (∀ x, x <:+ pre₁ → x.tail <:+ pre) := by
      rcases hsstk with hps | ⟨node, hnode, hps⟩
      · refine ⟨pre, hps.trans hstk, hpre, fun x hx => ?_⟩
        exact (List.tail_suffix x).trans hx
      · refine ⟨node :: pre, by rw [hps, hstk]; rfl, ?_, fun x hx => ?_⟩
        · intro hmem
          rcases List.mem_cons.mp hmem with hc | hc
          · exact hnode hc.symm
          · exact hpre hc
        · exact tail_suffix_of_suffix_cons hx
    obtain ⟨pre₁, hstk1, hpre₁, htail₁⟩ := hmain
    rcases ihi s1 pre₁ rst d hdfi (hsdate.trans hd) hstk1 hpre₁ hrst with
      ⟨pre', h1, h2, h3, h4, h5⟩ | ⟨w, b, h1, h2, h3, h4⟩
    · -- phase one after the inner content: the Day tag is still pending
      set s2 := processEvents pIso now s1 _ with hs2
      cases pre' with
      | nil =>
        -- the end event pops the pending Day tag and finalizes
        rw [pe_end_day_some pIso now s2 h2 h3]
        set s3 : LoaderState :=
          { s2 with
            element_stack := rst,
            today := todayUpd now s2.today ⟨d, s2.worktime, s2.breaktime⟩,
            all_days := s2.all_days ++ [⟨d, s2.worktime, s2.breaktime⟩],
            worktime := 0, breaktime := 0, date := none } with hs3
        obtain ⟨hr1, hr2, hr3, hr4⟩ := process_dayfree pIso now hrest s3 hdfr rfl
        refine Or.inr ⟨s2.worktime, s2.breaktime, hr3, ?_, ?_, hr4⟩
        · rw [hr1]
          show s2.all_days ++ _ = _
          rw [h4, hsall]
        · rw [hr2]
          show todayUpd now s2.today _ = _
          rw [h5, hstod]
      | cons q pre'' =>
        have hq : q ≠ .Day := by
          intro hc
          subst hc
          exact hpre₁ (h1.subset (List.mem_cons_self _ _))
        have hpre'' : .Day ∉ pre'' := by
          intro hm
          exact hpre₁ (h1.subset (List.mem_cons_of_mem q hm))
        set s2 := processEvents pIso now s1 _ with hs2
        have hstk2' : s2.element_stack = q :: (pre'' ++ .Day :: rst) := h2
        rw [pe_end_cons_other pIso now s2 hstk2' hq]
        set s3 : LoaderState :=
          { s2 with element_stack := pre'' ++ .Day :: rst } with hs3
        have hpre''pre : pre'' <:+ pre := htail₁ (q :: pre'') h1
        rcases ihr s3 pre'' rst d hdfr h3 rfl hpre'' hrst with
          ⟨pre₃, g1, g2, g3, g4, g5⟩ | ⟨w, b, g1, g2, g3, g4⟩
        · refine Or.inl ⟨pre₃, g1.trans hpre''pre, g2, g3, ?_, ?_⟩
          · rw [g4]
            show s2.all_days = _
            rw [h4, hsall]
          · rw [g5]
            show s2.today = _
            rw [h5, hstod]
        · refine Or.inr ⟨w, b, g1, ?_, ?_, g4⟩
          · rw [g2]
            show s2.all_days ++ _ = _
            rw [h4, hsall]
          · rw [g3]
            show todayUpd now s2.today _ = _
            rw [h5, hstod]
    · -- phase two after the inner content: already finalized
      set s2 := processEvents pIso now s1 _ with hs2
      rw [pe_end_date_none pIso now s2 h1]
      set s3 : LoaderState :=
        { s2 with element_stack := s2.element_stack.tail } with hs3
      obtain ⟨hr1, hr2, hr3, hr4⟩ := process_dayfree pIso now hrest s3 hdfr h1
      refine Or.inr ⟨w, b, hr3, ?_, ?_, ?_⟩
      · rw [hr1]
        show s2.all_days = _
        rw [h2, hsall]
      · rw [hr2]
        show s2.today = _
        rw [h3, hstod]
      · refine hr4.trans ?_
        show s2.element_stack.tail <:+ rst
        exact (List.tail_suffix _).trans h4


theorem dayStartDate_not_day (pIso : String → Option DateTime)
    {e : XmlEvent} (h : isDayStart e = false) :
    dayStartDate pIso e = none := by
  cases e <;> simp_all [dayStartDate, isDayStart]

theorem parsedDates_dayfree (pIso : String → Option DateTime)
    {l : List XmlEvent} (h : dayFree l = true) :
    parsedDates pIso l = [] := by
  refine List.filterMap_eq_nil_iff.mpr fun e he => ?_
  have := List.all_eq_true.mp h e he
  exact dayStartDate_not_day pIso (by simpa using this)

theorem parsedDates_characters (pIso : String → Option DateTime)
    (c : String) (l : List XmlEvent) :
    parsedDates pIso (XmlEvent.characters c :: l) = parsedDates pIso l := by
  simp [parsedDates, List.filterMap_cons, dayStartDate]

theorem parsedDates_endElement (pIso : String → Option DateTime)
    (l : List XmlEvent) :
    parsedDates pIso (XmlEvent.endElement :: l) = parsedDates pIso l := by
  simp [parsedDates, List.filterMap_cons, dayStartDate]

theorem parsedDates_append (pIso : String → Option DateTime)
    (l₁ l₂ : List XmlEvent) :
    parsedDates pIso (l₁ ++ l₂) =
      parsedDates pIso l₁ ++ parsedDates pIso l₂ := by
  simp [parsedDates, List.filterMap_append]

theorem parsedDates_start_other (pIso : String → Option DateTime)
    {n : String} (a : List Attribute) (l : List XmlEvent) (hn : n ≠ "day") :
    parsedDates pIso (XmlEvent.startElement n a :: l) =
      parsedDates pIso l := by
  simp [parsedDates, List.filterMap_cons, dayStartDate, hn]

theorem parsedDates_start_day (pIso : String → Option DateTime)
    (a : List Attribute) (l : List XmlEvent) :
    parsedDates pIso (XmlEvent.startElement "day" a :: l) =
      match (a.find? (fun x => x.local_name == "date")).bind
          (fun x => pIso x.value) with
      | some d => d :: parsedDates pIso l
      | none => parsedDates pIso l := by
  rw [parsedDates, List.filterMap_cons]
  cases h : (a.find? (fun x => x.local_name == "date")).bind
      (fun x => pIso x.value) with
  | none => simp [dayStartDate, h, parsedDates]
  | some d => simp [dayStartDate, h, parsedDates]

/-- The central characterization: over well-formed content with no nested
`day` elements, a load starting with no captured date and no pending `Day`
tag appends one `Day` per `day` element whose `date` attribute parses (in
document order, with exactly those dates), updates `today` by the
first-match-wins rule along that list, ends with no captured date, and only
shrinks the stack. -/
theorem process_nonested (pIso : String → Option DateTime) (now : DateTime)
    {F : List XmlEvent} (hF : NoNestedDay F) :
    ∀ s : LoaderState, s.date = none → .Day ∉ s.element_stack →
    ∃ delta : List Day,
      (processEvents pIso now s F).all_days = s.all_days ++ delta ∧
      delta.map Day.date = parsedDates pIso F ∧
      (processEvents pIso now s F).today =
        delta.foldl (todayUpd now) s.today ∧
      (processEvents pIso now s F).date = none ∧
      (processEvents pIso now s F).element_stack <:+ s.element_stack := by
  induction hF with
  | nil =>
    intro s hd _
    exact ⟨[], by simp [processEvents_nil], rfl, rfl, hd, List.suffix_refl _⟩
  | text c _ ih =>
    intro s hd hnostk
    rw [processEvents_cons, parsedDates_characters]
    obtain ⟨hdate, hstk, hall, htod, _⟩ := pe_characters_frame pIso now s c
    obtain ⟨delta, h1, h2, h3, h4, h5⟩ :=
      ih (processEvent pIso now s (.characters c)) (hdate.trans hd)
        (hstk ▸ hnostk)
    rw [hall] at h1
    rw [htod] at h3
    exact ⟨delta, h1, h2, h3, h4, hstk ▸ h5⟩
  | dayElem attrs hinner hdfi hrest ih =>
    intro s hd hnostk
    rw [processEvents_append, processEvents_cons, processEvents_cons,
      parsedDates_append, parsedDates_start_day, parsedDates_endElement]
    rw [parsedDates_dayfree pIso hdfi]
    cases hfind : List.find? (fun x => x.local_name == "date") attrs with
    | none =>
      -- no date attribute: Day tag pushed, date unchanged (still none)
      rw [pe_start_day_no_attr pIso now s hfind]
      set s1 : LoaderState :=
        { s with element_stack := .Day :: s.element_stack } with hs1
      obtain ⟨ha1, ha2, ha3, ha4⟩ := process_dayfree pIso now hinner s1 hdfi hd
      set s2 := processEvents pIso now s1 _ with hs2
      rw [pe_end_date_none pIso now s2 ha3]
      set s3 : LoaderState :=
        { s2 with element_stack := s2.element_stack.tail } with hs3
      have hstk3 : s3.element_stack <:+ s.element_stack := by
        show s2.element_stack.tail <:+ s.element_stack
        exact tail_suffix_of_suffix_cons ha4
      obtain ⟨delta, h1, h2, h3, h4, h5⟩ := ih s3 ha3
        (fun hm => hnostk (hstk3.subset hm))
      refine ⟨delta, ?_, by simpa using h2, ?_, h4, h5.trans hstk3⟩
      · rw [h1]
        show s2.all_days ++ delta = _
        rw [ha1]
      · rw [h3]
        show delta.foldl _ s2.today = _
        rw [ha2]
    | some x =>
      rw [pe_start_day_attr pIso now s hfind]
      cases hp : pIso x.value with
      | none =>
        -- date attribute does not parse: captured date becomes none
        set s1 : LoaderState :=
          { s with element_stack := .Day :: s.element_stack,
                   date := none } with hs1
        have hd1 : s1.date = none := rfl
        obtain ⟨ha1, ha2, ha3, ha4⟩ :=
          process_dayfree pIso now hinner s1 hdfi hd1
        set s2 := processEvents pIso now s1 _ with hs2
        rw [pe_end_date_none pIso now s2 ha3]
        set s3 : LoaderState :=
          { s2 with element_stack := s2.element_stack.tail } with hs3
        have hstk3 : s3.element_stack <:+ s.element_stack := by
          show s2.element_stack.tail <:+ s.element_stack
          exact tail_suffix_of_suffix_cons ha4
        obtain ⟨delta, h1, h2, h3, h4, h5⟩ := ih s3 ha3
          (fun hm => hnostk (hstk3.subset hm))
        refine ⟨delta, ?_, by simp [hp, h2], ?_, h4, h5.trans hstk3⟩
        · rw [h1]
          show s2.all_days ++ delta = _
          rw [ha1]
        · rw [h3]
          show delta.foldl _ s2.today = _
          rw [ha2]
      | some d =>
        -- the date parses: the pending day will finalize with date d
        set s1 : LoaderState :=
          { s with element_stack := .Day :: s.element_stack,
                   date := some d } with hs1
        have hd1 : s1.date = some d := rfl
        have hstk1 : s1.element_stack = [] ++ .Day :: s.element_stack := rfl
        rcases process_dayfree_dated pIso now hinner s1 []
            s.element_stack d hdfi hd1 hstk1 (by simp) hnostk with
          ⟨pre', g1, g2, g3, g4, g5⟩ | ⟨w, b, g1, g2, g3, g4⟩
        · -- tag still pending: the day element's own end finalizes it
          have hpre' : pre' = [] := List.suffix_nil.mp g1
          subst hpre'
          set s2 := processEvents pIso now s1 _ with hs2
          rw [pe_end_day_some pIso now s2 g2 g3]
          set s3 : LoaderState :=
            { s2 with
              element_stack := s.element_stack,
              today := todayUpd now s2.today ⟨d, s2.worktime, s2.breaktime⟩,
              all_days := s2.all_days ++ [⟨d, s2.worktime, s2.breaktime⟩],
              worktime := 0, breaktime := 0, date := none } with hs3
          obtain ⟨delta, h1, h2, h3, h4, h5⟩ := ih s3 rfl hnostk
          refine ⟨⟨d, s2.worktime, s2.breaktime⟩ :: delta, ?_, ?_, ?_, h4, ?_⟩
          · rw [h1]
            show s2.all_days ++ [⟨d, s2.worktime, s2.breaktime⟩] ++ delta = _
            rw [g4]
            show s1.all_days ++ _ ++ _ = _
            rw [hs1]
            simp
          · simpa [hp] using congrArg (List.cons d) h2
          · rw [h3]
            show delta.foldl _ (todayUpd now s2.today _) = _
            rw [g5]
            show delta.foldl _ (todayUpd now s1.today _) = _
            rw [hs1]
            rfl
          · exact h5
        · -- tag already popped early inside the day element's content
          set s2 := processEvents pIso now s1 _ with hs2
          rw [pe_end_date_none pIso now s2 g1]
          set s3 : LoaderState :=
            { s2 with element_stack := s2.element_stack.tail } with hs3
          have hstk3 : s3.element_stack <:+ s.element_stack := by
            show s2.element_stack.tail <:+ s.element_stack
            exact (List.tail_suffix _).trans g4
          obtain ⟨delta, h1, h2, h3, h4, h5⟩ := ih s3 g1
            (fun hm => hnostk (hstk3.subset hm))
          refine ⟨⟨d, w, b⟩ :: delta, ?_, ?_, ?_, h4, h5.trans hstk3⟩
          · rw [h1]
            show s2.all_days ++ delta = _
            rw [g2]
            show s1.all_days ++ _ ++ _ = _
            rw [hs1]
            simp
          · simpa [hp] using congrArg (List.cons d) h2
          · rw [h3]
            show delta.foldl _ s2.today = _
            rw [g3]
            show delta.foldl _ (todayUpd now s1.today _) = _
            rw [hs1]
            rfl
  | otherElem name attrs hn hinner hrest ihi ihr =>
    intro s hd hnostk
    rw [processEvents_append, processEvents_cons, processEvents_cons,
      parsedDates_append, parsedDates_start_other pIso attrs _ hn,
      parsedDates_endElement]
    set s1 := processEvent pIso now s (.startElement name attrs) with hs1
    obtain ⟨hsdate, hsstk⟩ := pe_start_not_day pIso now s attrs hn
    obtain ⟨hsall, hstod, _, _, _⟩ := pe_start_frame pIso now s name attrs
    rw [← hs1] at hsdate hsstk hsall hstod
    have hnostk1 : StatisticsElement.Day ∉ s1.element_stack := by
      rcases hsstk with hps | ⟨node, hnode, hps⟩
      · rw [hps]; exact hnostk
      · rw [hps]
        intro hm
        rcases List.mem_cons.mp hm with hc | hc
        · exact hnode hc.symm
        · exact hnostk hc
    obtain ⟨di, hi1, hi2, hi3, hi4, hi5⟩ := ihi s1 (hsdate.trans hd) hnostk1
    set s2 := processEvents pIso now s1 _ with hs2
    rw [pe_end_date_none pIso now s2 hi4]
    set s3 : LoaderState :=
      { s2 with element_stack := s2.element_stack.tail } with hs3
    have hstk3 : s3.element_stack <:+ s.element_stack := by
      show s2.element_stack.tail <:+ s.element_stack
      rcases hsstk with hps | ⟨node, _, hps⟩
      · rw [hps] at hi5
        exact (List.tail_suffix _).trans hi5
      · rw [hps] at hi5
        exact tail_suffix_of_suffix_cons hi5
    obtain ⟨dr, hr1, hr2, hr3, hr4, hr5⟩ := ihr s3 hi4
      (fun hm => hnostk (hstk3.subset hm))
    refine ⟨di ++ dr, ?_, ?_, ?_, hr4, hr5.trans hstk3⟩
    · rw [hr1]
      show s2.all_days ++ dr = _
      rw [hi1, hsall, List.append_assoc]
    · rw [List.map_append, hi2, hr2]
    · rw [hr3]
      show dr.foldl _ s2.today = _
      rw [hi3, hstod, List.foldl_append]


/-- One event appends the same days and evolves the working components the
same way from any two states that agree on those components; `all_days` is
append-only and `today` follows the set-at-most-once rule along the
appended days. -/
theorem pe_frame (pIso : String → Option DateTime) (now : DateTime)
    (e : XmlEvent) (s t : LoaderState)
    (h1 : s.worktime = t.worktime) (h2 : s.breaktime = t.breaktime)
    (h3 : s.date = t.date) (h4 : s.element_stack = t.element_stack) :
    ∃ delta : List Day,
      (processEvent pIso now s e).all_days = s.all_days ++ delta ∧
      (processEvent pIso now t e).all_days = t.all_days ++ delta ∧
      (processEvent pIso now s e).today =
        delta.foldl (todayUpd now) s.today ∧
      (processEvent pIso now t e).today =
        delta.foldl (todayUpd now) t.today ∧
      (processEvent pIso now s e).worktime =
        (processEvent pIso now t e).worktime ∧
      (processEvent pIso now s e).breaktime =
        (processEvent pIso now t e).breaktime ∧
      (processEvent pIso now s e).date = (processEvent pIso now t e).date ∧
      (processEvent pIso now s e).element_stack =
        (processEvent pIso now t e).element_stack := by
  cases e with
  | startDocument =>
    rw [pe_startDocument pIso now s, pe_startDocument pIso now t]
    exact ⟨[], by simp, by simp, rfl, rfl, h1, h2, h3, h4⟩
  | other =>
    rw [pe_otherEvent pIso now s, pe_otherEvent pIso now t]
    exact ⟨[], by simp, by simp, rfl, rfl, h1, h2, h3, h4⟩
  | endDocument =>
    rw [pe_endDocument pIso now s, pe_endDocument pIso now t]
    exact ⟨[], by simp, by simp, rfl, rfl, h1, h2, h3, h4⟩
  | startElement n a =>
    cases hfn : StatisticsElement.from_name n with
    | none =>
      rw [pe_start_unrec pIso now s a hfn, pe_start_unrec pIso now t a hfn]
      exact ⟨[], by simp, by simp, rfl, rfl, h1, h2, h3, h4⟩
    | some node =>
      cases node with
      | Day =>
        have := from_name_day hfn
        subst this
        cases hfind : List.find? (fun x => x.local_name == "date") a with
        | none =>
          rw [pe_start_day_no_attr pIso now s hfind,
            pe_start_day_no_attr pIso now t hfind]
          exact ⟨[], by simp, by simp, rfl, rfl, h1, h2, h3,
            by rw [h4]⟩
        | some x =>
          rw [pe_start_day_attr pIso now s hfind,
            pe_start_day_attr pIso now t hfind]
          exact ⟨[], by simp, by simp, rfl, rfl, h1, h2, rfl,
            by rw [h4]⟩
      | Worktime =>
        rw [pe_start_push pIso now s a hfn (by intro hc; cases hc),
          pe_start_push pIso now t a hfn (by intro hc; cases hc)]
        exact ⟨[], by simp, by simp, rfl, rfl, h1, h2, h3, by rw [h4]⟩
      | Breaktime =>
        rw [pe_start_push pIso now s a hfn (by intro hc; cases hc),
          pe_start_push pIso now t a hfn (by intro hc; cases hc)]
        exact ⟨[], by simp, by simp, rfl, rfl, h1, h2, h3, by rw [h4]⟩
      | Statistics =>
        rw [pe_start_push pIso now s a hfn (by intro hc; cases hc),
          pe_start_push pIso now t a hfn (by intro hc; cases hc)]
        exact ⟨[], by simp, by simp, rfl, rfl, h1, h2, h3, by rw [h4]⟩
      | None =>
        rw [pe_start_push pIso now s a hfn (by intro hc; cases hc),
          pe_start_push pIso now t a hfn (by intro hc; cases hc)]
        exact ⟨[], by simp, by simp, rfl, rfl, h1, h2, h3, by rw [h4]⟩
  | characters c =>
    have htopt : t.element_stack.headD .None = s.element_stack.headD .None :=
      by rw [h4]
    cases hs : s.element_stack.headD .None with
    | Worktime =>
      cases hc : parseU32 c with
      | none =>
        rw [pe_chars_parse_fail pIso now s c hc,
          pe_chars_parse_fail pIso now t c hc]
        exact ⟨[], by simp, by simp, rfl, rfl, h1, h2, h3, h4⟩
      | some k =>
        rw [pe_chars_worktime pIso now s c hs hc,
          pe_chars_worktime pIso now t c (htopt.trans hs) hc]
        exact ⟨[], by simp, by simp, rfl, rfl, rfl, h2, h3, h4⟩
    | Breaktime =>
      cases hc : parseU32 c with
      | none =>
        rw [pe_chars_parse_fail pIso now s c hc,
          pe_chars_parse_fail pIso now t c hc]
        exact ⟨[], by simp, by simp, rfl, rfl, h1, h2, h3, h4⟩
      | some k =>
        rw [pe_chars_breaktime pIso now s c hs hc,
          pe_chars_breaktime pIso now t c (htopt.trans hs) hc]
        exact ⟨[], by simp, by simp, rfl, rfl, h1, rfl, h3, h4⟩
    | Day =>
      rw [pe_characters_top_none pIso now s c (by rw [hs]; simp)
          (by rw [hs]; simp),
        pe_characters_top_none pIso now t c (by rw [htopt, hs]; simp)
          (by rw [htopt, hs]; simp)]
      exact ⟨[], by simp, by simp, rfl, rfl, h1, h2, h3, h4⟩
    | Statistics =>
      rw [pe_characters_top_none pIso now s c (by rw [hs]; simp)
          (by rw [hs]; simp),
        pe_characters_top_none pIso now t c (by rw [htopt, hs]; simp)
          (by rw [htopt, hs]; simp)]
      exact ⟨[], by simp, by simp, rfl, rfl, h1, h2, h3, h4⟩
    | None =>
      rw [pe_characters_top_none pIso now s c (by rw [hs]; simp)
          (by rw [hs]; simp),
        pe_characters_top_none pIso now t c (by rw [htopt, hs]; simp)
          (by rw [htopt, hs]; simp)]
      exact ⟨[], by simp, by simp, rfl, rfl, h1, h2, h3, h4⟩
  | endElement =>
    cases hstk : s.element_stack with
    | nil =>
      rw [pe_end_nil pIso now s hstk, pe_end_nil pIso now t (h4 ▸ hstk)]
      exact ⟨[], by simp, by simp, rfl, rfl, h1, h2, h3, h4⟩
    | cons c rest =>
      have hstkt : t.element_stack = c :: rest := h4 ▸ hstk
      cases c with
      | Day =>
        cases hd : s.date with
        | none =>
          rw [pe_end_day_none pIso now s hstk hd,
            pe_end_day_none pIso now t hstkt (h3 ▸ hd)]
          exact ⟨[], by simp, by simp, rfl, rfl, h1, h2, h3, rfl⟩
        | some d =>
          rw [pe_end_day_some pIso now s hstk hd,
            pe_end_day_some pIso now t hstkt (h3 ▸ hd)]
          refine ⟨[⟨d, s.worktime, s.breaktime⟩], by simp, ?_, rfl, ?_,
            rfl, rfl, rfl, rfl⟩
          · rw [h1, h2]
          · rw [h1, h2]
            rfl
      | Worktime =>
        rw [pe_end_cons_other pIso now s hstk (by intro hc; cases hc),
          pe_end_cons_other pIso now t hstkt (by intro hc; cases hc)]
        exact ⟨[], by simp, by simp, rfl, rfl, h1, h2, h3, rfl⟩
      | Breaktime =>
        rw [pe_end_cons_other pIso now s hstk (by intro hc; cases hc),
          pe_end_cons_other pIso now t hstkt (by intro hc; cases hc)]
        exact ⟨[], by simp, by simp, rfl, rfl, h1, h2, h3, rfl⟩
      | Statistics =>
        rw [pe_end_cons_other pIso now s hstk (by intro hc; cases hc),
          pe_end_cons_other pIso now t hstkt (by intro hc; cases hc)]
        exact ⟨[], by simp, by simp, rfl, rfl, h1, h2, h3, rfl⟩
      | None =>
        rw [pe_end_cons_other pIso now s hstk (by intro hc; cases hc),
          pe_end_cons_other pIso now t hstkt (by intro hc; cases hc)]
        exact ⟨[], by simp, by simp, rfl, rfl, h1, h2, h3, rfl⟩

/-- `pe_frame` lifted to whole event lists. -/
theorem process_frame (pIso : String → Option DateTime) (now : DateTime)
    (events : List XmlEvent) :
    ∀ s t : LoaderState,
      s.worktime = t.worktime → s.breaktime = t.breaktime →
      s.date = t.date → s.element_stack = t.element_stack →
      ∃ delta : List Day,
        (processEvents pIso now s events).all_days = s.all_days ++ delta ∧
        (processEvents pIso now t events).all_days = t.all_days ++ delta ∧
        (processEvents pIso now s events).today =
          delta.foldl (todayUpd now) s.today ∧
        (processEvents pIso now t events).today =
          delta.foldl (todayUpd now) t.today ∧
        (processEvents pIso now s events).worktime =
          (processEvents pIso now t events).worktime ∧
        (processEvents pIso now s events).breaktime =
          (processEvents pIso now t events).breaktime ∧
        (processEvents pIso now s events).date =
          (processEvents pIso now t events).date ∧
        (processEvents pIso now s events).element_stack =
          (processEvents pIso now t events).element_stack := by
  induction events with
  | nil =>
    intro s t h1 h2 h3 h4
    exact ⟨[], by simp [processEvents_nil], by simp [processEvents_nil],
      rfl, rfl, h1, h2, h3, h4⟩
  | cons e l ih =>
    intro s t h1 h2 h3 h4
    rw [processEvents_cons, processEvents_cons]
    obtain ⟨d1, e1, e2, e3, e4, e5, e6, e7, e8⟩ :=
      pe_frame pIso now e s t h1 h2 h3 h4
    obtain ⟨d2, f1, f2, f3, f4, f5, f6, f7, f8⟩ :=
      ih (processEvent pIso now s e) (processEvent pIso now t e)
        e5 e6 e7 e8
    refine ⟨d1 ++ d2, ?_, ?_, ?_, ?_, f5, f6, f7, f8⟩
    · rw [f1, e1, List.append_assoc]
    · rw [f2, e2, List.append_assoc]
    · rw [f3, e3, List.foldl_append]
    · rw [f4, e4, List.foldl_append]


theorem processEvents_docEvents (pIso : String → Option DateTime)
    (now : DateTime) (s : LoaderState) (body : List XmlEvent) :
    processEvents pIso now s (docEvents body) =
      processEvent pIso now (processEvents pIso now s body) .endDocument := by
  simp only [docEvents]
  rw [processEvents_append, processEvents_cons, processEvents_nil,
    processEvents_cons, pe_startDocument]

theorem load_days_all_today (pIso : String → Option DateTime)
    (now : DateTime) (obj : StatisticsObj) (events : List XmlEvent) :
    load_days pIso now obj events =
      if (processEvents pIso now (initLoader obj) events).today.isNone then
        { all_days :=
            (processEvents pIso now (initLoader obj) events).all_days ++
              [⟨now, 0, 0⟩],
          today := some ⟨now, 0, 0⟩ }
      else
        { all_days := (processEvents pIso now (initLoader obj) events).all_days,
          today := (processEvents pIso now (initLoader obj) events).today } :=
  rfl

theorem load_days_congr (pIso : String → Option DateTime) (now : DateTime)
    (obj : StatisticsObj) {ev1 ev2 : List XmlEvent}
    (hall : (processEvents pIso now (initLoader obj) ev1).all_days =
      (processEvents pIso now (initLoader obj) ev2).all_days)
    (htod : (processEvents pIso now (initLoader obj) ev1).today =
      (processEvents pIso now (initLoader obj) ev2).today) :
    load_days pIso now obj ev1 = load_days pIso now obj ev2 := by
  rw [load_days_all_today, load_days_all_today, hall, htod]

theorem simrel_step (pIso : String → Option DateTime) (now : DateTime)
    (e : XmlEvent) (s1 s2 : LoaderState) (h : SimRel s1 s2) :
    SimRel (processEvent pIso now s1 e) (processEvent pIso now s2 e) := by
  obtain ⟨h1, h2, h3, h4, h5, hstk⟩ := h
  rcases hstk with hstk | hstk
  · obtain ⟨d, e1, e2, e3, e4, e5, e6, e7, e8⟩ :=
      pe_frame pIso now e s1 s2 h1 h2 h3 hstk
    refine ⟨e5, e6, e7, ?_, ?_, Or.inl e8⟩
    · rw [e1, e2, h4]
    · rw [e3, e4, h5]
  · cases e with
    | startDocument =>
      rw [pe_startDocument, pe_startDocument]
      exact ⟨h1, h2, h3, h4, h5, Or.inr hstk⟩
    | other =>
      rw [pe_otherEvent, pe_otherEvent]
      exact ⟨h1, h2, h3, h4, h5, Or.inr hstk⟩
    | endDocument =>
      rw [pe_endDocument, pe_endDocument]
      exact ⟨h1, h2, h3, h4, h5, Or.inr hstk⟩
    | startElement n a =>
      cases hfn : StatisticsElement.from_name n with
      | none =>
        rw [pe_start_unrec pIso now s1 a hfn, pe_start_unrec pIso now s2 a hfn]
        exact ⟨h1, h2, h3, h4, h5, Or.inr hstk⟩
      | some node =>
        cases node with
        | Day =>
          have := from_name_day hfn
          subst this
          cases hfind : List.find? (fun x => x.local_name == "date") a with
          | none =>
            rw [pe_start_day_no_attr pIso now s1 hfind,
              pe_start_day_no_attr pIso now s2 hfind]
            refine ⟨h1, h2, h3, h4, h5, Or.inr ?_⟩
            simp [hstk]
          | some x =>
            rw [pe_start_day_attr pIso now s1 hfind,
              pe_start_day_attr pIso now s2 hfind]
            refine ⟨h1, h2, rfl, h4, h5, Or.inr ?_⟩
            simp [hstk]
        | Worktime =>
          rw [pe_start_push pIso now s1 a hfn (by intro hc; cases hc),
            pe_start_push pIso now s2 a hfn (by intro hc; cases hc)]
          refine ⟨h1, h2, h3, h4, h5, Or.inr ?_⟩
          simp [hstk]
        | Breaktime =>
          rw [pe_start_push pIso now s1 a hfn (by intro hc; cases hc),
            pe_start_push pIso now s2 a hfn (by intro hc; cases hc)]
          refine ⟨h1, h2, h3, h4, h5, Or.inr ?_⟩
          simp [hstk]
        | Statistics =>
          rw [pe_start_push pIso now s1 a hfn (by intro hc; cases hc),
            pe_start_push pIso now s2 a hfn (by intro hc; cases hc)]
          refine ⟨h1, h2, h3, h4, h5, Or.inr ?_⟩
          simp [hstk]
        | None =>
          rw [pe_start_push pIso now s1 a hfn (by intro hc; cases hc),
            pe_start_push pIso now s2 a hfn (by intro hc; cases hc)]
          refine ⟨h1, h2, h3, h4, h5, Or.inr ?_⟩
          simp [hstk]
    | characters c =>
      cases hse : s1.element_stack with
      | nil =>
        have hs2 : s2.element_stack = [.Statistics] := by
          rw [hstk, hse]
          rfl
        have ht1 : s1.element_stack.headD .None = .None := by rw [hse]; rfl
        have ht2 : s2.element_stack.headD .None = .Statistics := by
          rw [hs2]; rfl
        rw [pe_characters_top_none pIso now s1 c (by rw [ht1]; simp)
            (by rw [ht1]; simp),
          pe_characters_top_none pIso now s2 c (by rw [ht2]; simp)
            (by rw [ht2]; simp)]
        exact ⟨h1, h2, h3, h4, h5, Or.inr hstk⟩
      | cons q qs =>
        have ht1 : s1.element_stack.headD .None = q := by rw [hse]; rfl
        have ht2 : s2.element_stack.headD .None = q := by
          rw [hstk, hse]
          rfl
        cases q with
        | Worktime =>
          cases hc : parseU32 c with
          | none =>
            rw [pe_chars_parse_fail pIso now s1 c hc,
              pe_chars_parse_fail pIso now s2 c hc]
            exact ⟨h1, h2, h3, h4, h5, Or.inr hstk⟩
          | some k =>
            rw [pe_chars_worktime pIso now s1 c ht1 hc,
              pe_chars_worktime pIso now s2 c ht2 hc]
            exact ⟨rfl, h2, h3, h4, h5, Or.inr hstk⟩
        | Breaktime =>
          cases hc : parseU32 c with
          | none =>
            rw [pe_chars_parse_fail pIso now s1 c hc,
              pe_chars_parse_fail pIso now s2 c hc]
            exact ⟨h1, h2, h3, h4, h5, Or.inr hstk⟩
          | some k =>
            rw [pe_chars_breaktime pIso now s1 c ht1 hc,
              pe_chars_breaktime pIso now s2 c ht2 hc]
            exact ⟨h1, rfl, h3, h4, h5, Or.inr hstk⟩
        | Day =>
          rw [pe_characters_top_none pIso now s1 c (by rw [ht1]; simp)
              (by rw [ht1]; simp),
            pe_characters_top_none pIso now s2 c (by rw [ht2]; simp)
              (by rw [ht2]; simp)]
          exact ⟨h1, h2, h3, h4, h5, Or.inr hstk⟩
        | Statistics =>
          rw [pe_characters_top_none pIso now s1 c (by rw [ht1]; simp)
              (by rw [ht1]; simp),
            pe_characters_top_none pIso now s2 c (by rw [ht2]; simp)
              (by rw [ht2]; simp)]
          exact ⟨h1, h2, h3, h4, h5, Or.inr hstk⟩
        | None =>
          rw [pe_characters_top_none pIso now s1 c (by rw [ht1]; simp)
              (by rw [ht1]; simp),
            pe_characters_top_none pIso now s2 c (by rw [ht2]; simp)
              (by rw [ht2]; simp)]
          exact ⟨h1, h2, h3, h4, h5, Or.inr hstk⟩
    | endElement =>
      cases hse : s1.element_stack with
      | nil =>
        have hs2 : s2.element_stack = [.Statistics] := by
          rw [hstk, hse]
          rfl
        rw [pe_end_nil pIso now s1 hse,
          pe_end_cons_other pIso now s2 hs2 (by intro hc; cases hc)]
        exact ⟨h1, h2, h3, h4, h5, Or.inl hse⟩
      | cons q qs =>
        have hs2 : s2.element_stack = q :: (qs ++ [.Statistics]) := by
          rw [hstk, hse]
          rfl
        cases q with
        | Day =>
          cases hd : s1.date with
          | none =>
            rw [pe_end_day_none pIso now s1 hse hd,
              pe_end_day_none pIso now s2 hs2 (h3 ▸ hd)]
            exact ⟨h1, h2, h3, h4, h5, Or.inr rfl⟩
          | some d =>
            rw [pe_end_day_some pIso now s1 hse hd,
              pe_end_day_some pIso now s2 hs2 (h3 ▸ hd)]
            refine ⟨rfl, rfl, rfl, ?_, ?_, Or.inr rfl⟩
            · rw [h4, h1, h2]
            · rw [h5, h1, h2]
        | Worktime =>
          rw [pe_end_cons_other pIso now s1 hse (by intro hc; cases hc),
            pe_end_cons_other pIso now s2 hs2 (by intro hc; cases hc)]
          exact ⟨h1, h2, h3, h4, h5, Or.inr rfl⟩
        | Breaktime =>
          rw [pe_end_cons_other pIso now s1 hse (by intro hc; cases hc),
            pe_end_cons_other pIso now s2 hs2 (by intro hc; cases hc)]
          exact ⟨h1, h2, h3, h4, h5, Or.inr rfl⟩
        | Statistics =>
          rw [pe_end_cons_other pIso now s1 hse (by intro hc; cases hc),
            pe_end_cons_other pIso now s2 hs2 (by intro hc; cases hc)]
          exact ⟨h1, h2, h3, h4, h5, Or.inr rfl⟩
        | None =>
          rw [pe_end_cons_other pIso now s1 hse (by intro hc; cases hc),
            pe_end_cons_other pIso now s2 hs2 (by intro hc; cases hc)]
          exact ⟨h1, h2, h3, h4, h5, Or.inr rfl⟩

theorem simrel_steps (pIso : String → Option DateTime) (now : DateTime)
    (events : List XmlEvent) :
    ∀ s1 s2 : LoaderState, SimRel s1 s2 →
      SimRel (processEvents pIso now s1 events)
        (processEvents pIso now s2 events) := by
  induction events with
  | nil => exact fun s1 s2 h => h
  | cons e l ih =>
    intro s1 s2 h
    rw [processEvents_cons, processEvents_cons]
    exact ih _ _ (simrel_step pIso now e s1 s2 h)

theorem texts_noop (pIso : String → Option DateTime) (now : DateTime)
    (texts : List String) :
    ∀ s : LoaderState,
      (s.element_stack = [.Statistics] ∨ s.element_stack = []) →
      processEvents pIso now s (texts.map XmlEvent.characters) = s := by
  induction texts with
  | nil => exact fun s _ => rfl
  | cons c l ih =>
    intro s hs
    rw [List.map_cons, processEvents_cons]
    have htop : s.element_stack.headD .None ≠ .Worktime ∧
        s.element_stack.headD .None ≠ .Breaktime := by
      rcases hs with hs | hs <;> rw [hs] <;> exact ⟨by simp, by simp⟩
    rw [pe_characters_top_none pIso now s c htop.1 htop.2]
    exact ih s hs


/-- Claim C1 (counterexample): processing a `day` start element without a
`date` attribute changes the element stack — the `Day` tag is pushed (line
123 of the source runs before the attribute lookup), contradicting the
claim that the stack is unchanged. -/
theorem c1_counterexample :
    (processEvent cIso dtOther (initLoader ⟨[], none⟩)
      (.startElement "day" [])).element_stack ≠
    (initLoader ⟨[], none⟩).element_stack := by decide

/-- Claim C1 (amended): when a `day` start element lacks a `date`
attribute, the loader pushes the `Day` tag onto the element stack and
skips only the date capture: every other state component, including the
captured date, is unchanged. -/
theorem c1_day_without_date_still_pushes (pIso : String → Option DateTime)
    (now : DateTime) (s : LoaderState) {a : List Attribute}
    (h : a.find? (fun x => x.local_name == "date") = none) :
    processEvent pIso now s (.startElement "day" a) =
      { s with element_stack := .Day :: s.element_stack } :=
  pe_start_day_no_attr pIso now s h

theorem c1_witness :
    ([] : List Attribute).find? (fun x => x.local_name == "date") = none ∧
    processEvent cIso dtOther (initLoader ⟨[], none⟩)
        (.startElement "day" []) =
      { initLoader ⟨[], none⟩ with element_stack := [.Day] } :=
  ⟨by decide, c1_day_without_date_still_pushes cIso dtOther _ (by decide)⟩

/-- Claim C2 (counterexample): a well-formed document with one `day`
nested inside another (both dates parsable, neither equal to the reference
day) produces 2 `Day` entries after a fresh load, but the claimed count —
parsed `day` elements (2) plus one synthesized entry — is 3. -/
theorem c2_counterexample :
    Balanced docNested ∧
    (parsedDates cIso docNested).length = 2 ∧
    (parsedDates cIso docNested).all
      (fun dt => !(same_day dt dtOther)) = true ∧
    (load_days cIso dtOther ⟨[], none⟩
      (docEvents docNested)).all_days.length = 2 ∧
    (load_days cIso dtOther ⟨[], none⟩
        (docEvents docNested)).all_days.length ≠
      (parsedDates cIso docNested).length + 1 :=
  ⟨Balanced.elem "day" [⟨"date", "A"⟩]
      (Balanced.elem "day" [⟨"date", "B"⟩] Balanced.nil Balanced.nil)
      Balanced.nil,
    by decide, by decide, by decide, by decide⟩

/-- Claim C3 (counterexample): in a well-formed document whose two `day`
elements both carry dates equal to the reference day but one is nested in
the other, the designated `today` carries the date of the inner (second in
document order) element, not the first such day in document order. -/
theorem c3_counterexample :
    Balanced docNested ∧
    2 ≤ ((parsedDates cIso docNested).filter
      (fun dt => same_day dt dtRef)).length ∧
    (parsedDates cIso docNested).find? (fun dt => same_day dt dtRef) =
      some dtA ∧
    ((load_days cIso dtRef ⟨[], none⟩ (docEvents docNested)).today).map
      Day.date = some dtB ∧
    dtB ≠ dtA :=
  ⟨Balanced.elem "day" [⟨"date", "A"⟩]
      (Balanced.elem "day" [⟨"date", "B"⟩] Balanced.nil Balanced.nil)
      Balanced.nil,
    by decide, by decide, by decide, by decide⟩

/-- Claim C4: for every well-formed document (properly nested, balanced
start/end element event sequence) the element stack is empty when the
end-of-document event is reached, so the end-of-document assertion never
fires. -/
theorem c4_stack_empty_at_end_of_document (pIso : String → Option DateTime)
    (now : DateTime) (obj : StatisticsObj) {F : List XmlEvent}
    (hF : Balanced F) :
    (processEvents pIso now (initLoader obj)
      (XmlEvent.startDocument :: F)).element_stack = [] ∧
    (loadFinal pIso now obj (docEvents F)).assert_failed = false := by
  have h0 : processEvents pIso now (initLoader obj)
      (XmlEvent.startDocument :: F) =
      processEvents pIso now (initLoader obj) F := by
    rw [processEvents_cons, pe_startDocument]
  obtain ⟨hs, ha⟩ := stack_suffix pIso now hF (initLoader obj)
  have hstk0 : (initLoader obj).element_stack =
      ([] : List StatisticsElement) := rfl
  rw [hstk0] at hs
  have hempty := List.suffix_nil.mp hs
  refine ⟨by rw [h0]; exact hempty, ?_⟩
  rw [loadFinal, processEvents_docEvents, pe_endDocument]
  show ((processEvents pIso now (initLoader obj) F).assert_failed ||
    !(processEvents pIso now (initLoader obj) F).element_stack.isEmpty) =
    false
  rw [ha, hempty]
  rfl

theorem c4_witness :
    (processEvents cIso dtOther (initLoader ⟨[], none⟩)
      (XmlEvent.startDocument :: docPlainDay)).element_stack = [] ∧
    (loadFinal cIso dtOther ⟨[], none⟩
      (docEvents docPlainDay)).assert_failed = false :=
  c4_stack_empty_at_end_of_document cIso dtOther ⟨[], none⟩
    (Balanced.elem "statistics" []
      (Balanced.elem "day" [⟨"date", "A"⟩] Balanced.nil Balanced.nil)
      Balanced.nil)

/-- Claim C5: if after the full event stream no `today` has been
designated, the loader appends a synthesized `Day` (reference date,
worktime 0, breaktime 0) and designates it `today`; in particular a
document with zero `day` elements yields exactly that one `Day`,
designated `today`. -/
theorem c5_post_parse_fallback (pIso : String → Option DateTime)
    (now : DateTime) :
    (∀ (obj : StatisticsObj) (events : List XmlEvent),
      (processEvents pIso now (initLoader obj) events).today = none →
      load_days pIso now obj events =
        ⟨(processEvents pIso now (initLoader obj) events).all_days ++
          [⟨now, 0, 0⟩], some ⟨now, 0, 0⟩⟩) ∧
    (∀ F : List XmlEvent, Balanced F → dayFree F = true →
      load_days pIso now ⟨[], none⟩ (docEvents F) =
        ⟨[⟨now, 0, 0⟩], some ⟨now, 0, 0⟩⟩) := by
  constructor
  · intro obj events h
    rw [load_days_all_today, h]
    rfl
  · intro F hB hdf
    obtain ⟨ha1, ha2, _, _⟩ :=
      process_dayfree pIso now hB (initLoader ⟨[], none⟩) hdf rfl
    have hdoc := processEvents_docEvents pIso now (initLoader ⟨[], none⟩) F
    have htod : (processEvents pIso now (initLoader ⟨[], none⟩)
        (docEvents F)).today = none := by
      rw [hdoc, pe_endDocument]
      show (processEvents pIso now (initLoader ⟨[], none⟩) F).today = none
      rw [ha2]
      rfl
    have hall : (processEvents pIso now (initLoader ⟨[], none⟩)
        (docEvents F)).all_days = [] := by
      rw [hdoc, pe_endDocument]
      show (processEvents pIso now (initLoader ⟨[], none⟩) F).all_days = []
      rw [ha1]
      rfl
    rw [load_days_all_today, htod, hall]
    rfl

theorem c5_witness :
    ((processEvents cIso dtOther (initLoader ⟨[], none⟩) []).today = none ∧
      load_days cIso dtOther ⟨[], none⟩ [] =
        ⟨[⟨dtOther, 0, 0⟩], some ⟨dtOther, 0, 0⟩⟩) ∧
    load_days cIso dtOther ⟨[], none⟩ (docEvents []) =
      ⟨[⟨dtOther, 0, 0⟩], some ⟨dtOther, 0, 0⟩⟩ :=
  ⟨⟨by decide,
      (c5_post_parse_fallback cIso dtOther).1 ⟨[], none⟩ [] (by decide)⟩,
    (c5_post_parse_fallback cIso dtOther).2 [] Balanced.nil (by decide)⟩

/-- Claim C6: popping a `day` tag while a captured date is present
constructs a `Day` from (captured date, worktime accumulator, breaktime
accumulator), appends it to `all_days` regardless of today-status, resets
both accumulators to zero, clears the captured date, and pops the tag. -/
theorem c6_day_end_finalizes (pIso : String → Option DateTime)
    (now : DateTime) (s : LoaderState) {rest : List StatisticsElement}
    {d : DateTime} (hstk : s.element_stack = .Day :: rest)
    (hd : s.date = some d) :
    (processEvent pIso now s .endElement).all_days =
      s.all_days ++ [⟨d, s.worktime, s.breaktime⟩] ∧
    (processEvent pIso now s .endElement).worktime = 0 ∧
    (processEvent pIso now s .endElement).breaktime = 0 ∧
    (processEvent pIso now s .endElement).date = none ∧
    (processEvent pIso now s .endElement).element_stack = rest := by
  rw [pe_end_day_some pIso now s hstk hd]
  exact ⟨rfl, rfl, rfl, rfl, rfl⟩

theorem c6_witness :
    (⟨7, 3, some dtA, [.Day], [], some ⟨dtB, 1, 1⟩, false⟩ :
        LoaderState).element_stack = [.Day] ∧
    (⟨7, 3, some dtA, [.Day], [], some ⟨dtB, 1, 1⟩, false⟩ :
        LoaderState).date = some dtA ∧
    (processEvent cIso dtRef
        (⟨7, 3, some dtA, [.Day], [], some ⟨dtB, 1, 1⟩, false⟩ :
          LoaderState) .endElement).all_days = [⟨dtA, 7, 3⟩] ∧
    (processEvent cIso dtRef
        (⟨7, 3, some dtA, [.Day], [], some ⟨dtB, 1, 1⟩, false⟩ :
          LoaderState) .endElement).worktime = 0 ∧
    (processEvent cIso dtRef
        (⟨7, 3, some dtA, [.Day], [], some ⟨dtB, 1, 1⟩, false⟩ :
          LoaderState) .endElement).breaktime = 0 ∧
    (processEvent cIso dtRef
        (⟨7, 3, some dtA, [.Day], [], some ⟨dtB, 1, 1⟩, false⟩ :
          LoaderState) .endElement).date = none ∧
    (processEvent cIso dtRef
        (⟨7, 3, some dtA, [.Day], [], some ⟨dtB, 1, 1⟩, false⟩ :
          LoaderState) .endElement).element_stack = [] := by
  have h := @c6_day_end_finalizes cIso dtRef
    (⟨7, 3, some dtA, [.Day], [], some ⟨dtB, 1, 1⟩, false⟩ : LoaderState)
    [] dtA rfl rfl
  exact ⟨rfl, rfl, h.1, h.2.1, h.2.2.1, h.2.2.2.1, h.2.2.2.2⟩

/-- Claim C7: character data whose content does not parse as a
non-negative integer, arriving with `worktime` or `breaktime` on top of
the stack, leaves the state (hence the accumulator) unchanged and the
load continues; in particular `<worktime>abc</worktime>` inside an
otherwise valid `day` yields that day with worktime 0 instead of aborting
the load. -/
theorem c7_parse_failure_keeps_accumulator :
    (∀ (pIso : String → Option DateTime) (now : DateTime)
      (s : LoaderState) (c : String),
      (s.element_stack.headD .None = .Worktime ∨
        s.element_stack.headD .None = .Breaktime) →
      parseU32 c = none →
      processEvent pIso now s (.characters c) = s) ∧
    parseU32 "abc" = none ∧
    (load_days cIso dtOther ⟨[], none⟩
        (docEvents docWorktimeAbc)).all_days =
      [⟨dtA, 0, 0⟩, ⟨dtOther, 0, 0⟩] :=
  ⟨fun pIso now s c _ hk => pe_chars_parse_fail pIso now s c hk,
    by decide, by decide⟩

theorem c7_witness :
    ((⟨0, 0, none, [.Worktime], [], none, false⟩ :
        LoaderState).element_stack.headD .None = .Worktime ∨
      (⟨0, 0, none, [.Worktime], [], none, false⟩ :
        LoaderState).element_stack.headD .None = .Breaktime) ∧
    parseU32 "abc" = none ∧
    processEvent cIso dtOther
        (⟨0, 0, none, [.Worktime], [], none, false⟩ : LoaderState)
        (.characters "abc") =
      (⟨0, 0, none, [.Worktime], [], none, false⟩ : LoaderState) :=
  ⟨Or.inl (by decide), by decide,
    c7_parse_failure_keeps_accumulator.1 cIso dtOther _ "abc"
      (Or.inl (by decide)) (by decide)⟩

/-- Claim C8 (counterexample): a document holding an unrecognized `foo`
element (containing a `worktime` child) as a sibling of a valid `day`
yields a different day collection than the same document with the `foo`
element and its content removed: the stray 99 bleeds into the day. -/
theorem c8_counterexample :
    (load_days cIso dtOther ⟨[], none⟩
        (docEvents docUnknownElem)).all_days =
      [⟨dtA, 99, 0⟩, ⟨dtOther, 0, 0⟩] ∧
    (load_days cIso dtOther ⟨[], none⟩ (docEvents docPlainDay)).all_days =
      [⟨dtA, 0, 0⟩, ⟨dtOther, 0, 0⟩] ∧
    (load_days cIso dtOther ⟨[], none⟩
        (docEvents docUnknownElem)).all_days ≠
      (load_days cIso dtOther ⟨[], none⟩ (docEvents docPlainDay)).all_days :=
  ⟨by decide, by decide, by decide⟩

/-- Claim C10: the worktime and breaktime accumulators are scoped to the
whole load, not to a single `day`: character content under a `worktime`
(resp. `breaktime`) top overwrites the corresponding accumulator no matter
what lies beneath it on the stack (first two conjuncts), and in concrete
runs a `worktime` (resp. `breaktime`) element that is a sibling of a `day`
under the root feeds its value into that next finalized `Day`, which
supplies no value of its own (last two conjuncts). -/
theorem c10_accumulators_load_scoped :
    (∀ (pIso : String → Option DateTime) (now : DateTime)
      (s : LoaderState) (c : String) (k : Nat),
      s.element_stack.headD .None = .Worktime → parseU32 c = some k →
      processEvent pIso now s (.characters c) = { s with worktime := k }) ∧
    (∀ (pIso : String → Option DateTime) (now : DateTime)
      (s : LoaderState) (c : String) (k : Nat),
      s.element_stack.headD .None = .Breaktime → parseU32 c = some k →
      processEvent pIso now s (.characters c) = { s with breaktime := k }) ∧
    (load_days cIso dtOther ⟨[], none⟩
        (docEvents docStrayWorktime)).all_days =
      [⟨dtA, 42, 0⟩, ⟨dtOther, 0, 0⟩] ∧
    (load_days cIso dtOther ⟨[], none⟩
        (docEvents docStrayBreaktime)).all_days =
      [⟨dtA, 0, 55⟩, ⟨dtOther, 0, 0⟩] :=
  ⟨fun pIso now s c k ht hk => pe_chars_worktime pIso now s c ht hk,
    fun pIso now s c k ht hk => pe_chars_breaktime pIso now s c ht hk,
    by decide, by decide⟩

theorem c10_witness :
    ((⟨0, 0, none, [.Worktime, .Statistics], [], none, false⟩ :
        LoaderState).element_stack.headD .None = .Worktime) ∧
    parseU32 "42" = some 42 ∧
    processEvent cIso dtOther
        (⟨0, 0, none, [.Worktime, .Statistics], [], none, false⟩ :
          LoaderState) (.characters "42") =
      (⟨42, 0, none, [.Worktime, .Statistics], [], none, false⟩ :
        LoaderState) ∧
    ((⟨0, 0, none, [.Breaktime, .Statistics], [], none, false⟩ :
        LoaderState).element_stack.headD .None = .Breaktime) ∧
    parseU32 "55" = some 55 ∧
    processEvent cIso dtOther
        (⟨0, 0, none, [.Breaktime, .Statistics], [], none, false⟩ :
          LoaderState) (.characters "55") =
      (⟨0, 55, none, [.Breaktime, .Statistics], [], none, false⟩ :
        LoaderState) :=
  ⟨by decide, by decide,
    c10_accumulators_load_scoped.1 cIso dtOther _ "42" 42 (by decide)
      (by decide),
    by decide, by decide,
    c10_accumulators_load_scoped.2.1 cIso dtOther _ "55" 55 (by decide)
      (by decide)⟩

theorem any_map_date (l : List Day) (p : DateTime → Bool) :
    (l.map Day.date).any p = l.any (fun d => p d.date) := by
  induction l with
  | nil => rfl
  | cons d l ih => simp [List.any_cons, ih]

/-- Claim C2 (amended): for every well-formed document in which no `day`
element is nested inside another `day` element, the number of `Day`
entries in `all_days` after a fresh load equals the number of `day`
elements whose `date` attribute parses as ISO-8601, plus one synthesized
entry exactly when no parsed date equals the reference day. -/
theorem c2_day_count (pIso : String → Option DateTime) (now : DateTime)
    {F : List XmlEvent} (hF : NoNestedDay F) :
    (load_days pIso now ⟨[], none⟩ (docEvents F)).all_days.length =
      (parsedDates pIso F).length +
        (if (parsedDates pIso F).any (fun dt => same_day dt now) then 0
         else 1) := by
  obtain ⟨delta, h1, h2, h3, _, _⟩ :=
    process_nonested pIso now hF (initLoader ⟨[], none⟩) rfl
      (List.not_mem_nil _)
  set sF := processEvents pIso now (initLoader ⟨[], none⟩) F with hsF
  have hdoc := processEvents_docEvents pIso now (initLoader ⟨[], none⟩) F
  have htod : (processEvents pIso now (initLoader ⟨[], none⟩)
      (docEvents F)).today = sF.today := by
    rw [hdoc, pe_endDocument]
  have hall : (processEvents pIso now (initLoader ⟨[], none⟩)
      (docEvents F)).all_days = sF.all_days := by
    rw [hdoc, pe_endDocument]
  have htodv : sF.today = delta.find? (fun day => same_day day.date now) := by
    rw [h3]
    show delta.foldl (todayUpd now) none = _
    exact foldl_todayUpd_none now delta
  have hlen : delta.length = (parsedDates pIso F).length := by
    rw [← h2, List.length_map]
  have hany : (parsedDates pIso F).any (fun dt => same_day dt now) =
      delta.any (fun day => same_day day.date now) := by
    rw [← h2, any_map_date]
  rw [load_days_all_today, htod, htodv, hall, h1, hany]
  cases hfind : delta.find? (fun day => same_day day.date now) with
  | none =>
    have hanyf : delta.any (fun day => same_day day.date now) = false := by
      rw [List.any_eq_false]
      intro x hx
      simpa using List.find?_eq_none.mp hfind x hx
    rw [hanyf]
    simp [initLoader, hlen]
  | some day =>
    have hanyt : delta.any (fun day => same_day day.date now) = true := by
      have hp := @List.find?_some Day (fun day => same_day day.date now)
        day delta hfind
      exact List.any_eq_true.mpr
        ⟨day, List.mem_of_find?_eq_some hfind, hp⟩
    rw [hanyt]
    simp [initLoader, hlen]

theorem c2_witness :
    NoNestedDay docTwoDays ∧
    (load_days cIso dtOther ⟨[], none⟩
        (docEvents docTwoDays)).all_days.length =
      (parsedDates cIso docTwoDays).length +
        (if (parsedDates cIso docTwoDays).any
          (fun dt => same_day dt dtOther) then 0 else 1) :=
  ⟨NoNestedDay.dayElem [⟨"date", "A"⟩] Balanced.nil (by decide)
      (NoNestedDay.dayElem [⟨"date", "B"⟩] Balanced.nil (by decide)
        NoNestedDay.nil),
    c2_day_count cIso dtOther
      (NoNestedDay.dayElem [⟨"date", "A"⟩] Balanced.nil (by decide)
        (NoNestedDay.dayElem [⟨"date", "B"⟩] Balanced.nil (by decide)
          NoNestedDay.nil))⟩

/-- Claim C3 (amended): for every well-formed document with no `day`
nested inside another `day` and at least two `day` elements whose parsed
dates equal the reference day, exactly one `Day` is designated `today`,
namely one whose date is the first parsed date (in document order) equal
to the reference day; later matches do not change the designation. -/
theorem c3_first_matching_day_is_today (pIso : String → Option DateTime)
    (now : DateTime) {F : List XmlEvent} (hF : NoNestedDay F)
    (htwo : 2 ≤ ((parsedDates pIso F).filter
      (fun dt => same_day dt now)).length) :
    ∃ t : Day,
      (load_days pIso now ⟨[], none⟩ (docEvents F)).today = some t ∧
      some t.date =
        (parsedDates pIso F).find? (fun dt => same_day dt now) := by
  obtain ⟨delta, h1, h2, h3, _, _⟩ :=
    process_nonested pIso now hF (initLoader ⟨[], none⟩) rfl
      (List.not_mem_nil _)
  set sF := processEvents pIso now (initLoader ⟨[], none⟩) F with hsF
  have hdoc := processEvents_docEvents pIso now (initLoader ⟨[], none⟩) F
  have htod : (processEvents pIso now (initLoader ⟨[], none⟩)
      (docEvents F)).today = sF.today := by
    rw [hdoc, pe_endDocument]
  have htodv : sF.today = delta.find? (fun day => same_day day.date now) := by
    rw [h3]
    show delta.foldl (todayUpd now) none = _
    exact foldl_todayUpd_none now delta
  have hex : ∃ x ∈ parsedDates pIso F, same_day x now = true := by
    rcases hfilter : (parsedDates pIso F).filter (fun dt => same_day dt now)
      with _ | ⟨y, ys⟩
    · rw [hfilter] at htwo
      simp at htwo
    · have hy : y ∈ (parsedDates pIso F).filter
          (fun dt => same_day dt now) := by
        rw [hfilter]
        exact List.mem_cons_self y ys
      have hyp := @List.of_mem_filter DateTime (fun dt => same_day dt now)
        y (parsedDates pIso F) hy
      exact ⟨y, List.mem_of_mem_filter hy, hyp⟩
  have hexd : ∃ t ∈ delta, same_day t.date now = true := by
    obtain ⟨x, hx, hp⟩ := hex
    rw [← h2] at hx
    obtain ⟨t, ht, rfl⟩ := List.mem_map.mp hx
    exact ⟨t, ht, hp⟩
  obtain ⟨t0, ht0, hp0⟩ := hexd
  have hsome : (delta.find? (fun day => same_day day.date now)).isSome :=
    List.find?_isSome.mpr ⟨t0, ht0, hp0⟩
  obtain ⟨t, hfind⟩ := Option.isSome_iff_exists.mp hsome
  refine ⟨t, ?_, ?_⟩
  · rw [load_days_all_today, htod, htodv, hfind]
    rfl
  · rw [← h2, List.find?_map]
    have hcomp : ((fun dt => same_day dt now) ∘ Day.date) =
        fun day => same_day day.date now := rfl
    rw [hcomp, hfind]
    rfl

theorem c3_witness :
    NoNestedDay docTwoDays ∧
    2 ≤ ((parsedDates cIso docTwoDays).filter
      (fun dt => same_day dt dtRef)).length ∧
    ∃ t : Day,
      (load_days cIso dtRef ⟨[], none⟩ (docEvents docTwoDays)).today =
        some t ∧
      some t.date =
        (parsedDates cIso docTwoDays).find?
          (fun dt => same_day dt dtRef) :=
  ⟨NoNestedDay.dayElem [⟨"date", "A"⟩] Balanced.nil (by decide)
      (NoNestedDay.dayElem [⟨"date", "B"⟩] Balanced.nil (by decide)
        NoNestedDay.nil),
    by decide,
    c3_first_matching_day_is_today cIso dtRef
      (NoNestedDay.dayElem [⟨"date", "A"⟩] Balanced.nil (by decide)
        (NoNestedDay.dayElem [⟨"date", "B"⟩] Balanced.nil (by decide)
          NoNestedDay.nil))
      (by decide)⟩


theorem processEvents_singleton (pIso : String → Option DateTime)
    (now : DateTime) (s : LoaderState) (e : XmlEvent) :
    processEvents pIso now s [e] = processEvent pIso now s e := rfl

/-- Claim C8 (amended): an unrecognized element whose content is character
data only, placed directly under the `statistics` root among its other
children, is transparent: loading the document yields the same `all_days`
and `today` as loading the document with the unrecognized element and its
content removed. -/
theorem c8_unknown_element_transparent (pIso : String → Option DateTime)
    (now : DateTime) (ra ua : List Attribute) (u : String)
    (texts : List String) (P S : List XmlEvent)
    (hP : Balanced P) (hu : StatisticsElement.from_name u = none) :
    load_days pIso now ⟨[], none⟩ (docEvents
      ([XmlEvent.startElement "statistics" ra] ++ P ++
        ([XmlEvent.startElement u ua] ++ texts.map XmlEvent.characters ++
          [XmlEvent.endElement]) ++ S ++ [XmlEvent.endElement])) =
    load_days pIso now ⟨[], none⟩ (docEvents
      ([XmlEvent.startElement "statistics" ra] ++ P ++ S ++
        [XmlEvent.endElement])) := by
  set s0 : LoaderState := initLoader ⟨[], none⟩ with hs0
  have hsstat : processEvent pIso now s0 (.startElement "statistics" ra) =
      { s0 with element_stack := [.Statistics] } :=
    pe_start_push pIso now s0 ra (by decide) (by intro hc; cases hc)
  set s0' : LoaderState := { s0 with element_stack := [.Statistics] }
    with hs0'
  set sP := processEvents pIso now s0' P with hsP
  have hsufx : sP.element_stack <:+ s0'.element_stack :=
    (stack_suffix pIso now hP s0').1
  have hcase : sP.element_stack = [.Statistics] ∨ sP.element_stack = [] := by
    have hx : s0'.element_stack = [.Statistics] := rfl
    rw [hx] at hsufx
    rcases List.suffix_cons_iff.mp hsufx with h | h
    · exact Or.inl h
    · exact Or.inr (List.suffix_nil.mp h)
  have hstart_u : processEvent pIso now sP (.startElement u ua) = sP :=
    pe_start_unrec pIso now sP ua hu
  have htexts : processEvents pIso now sP (texts.map XmlEvent.characters) =
      sP :=
    texts_noop pIso now texts sP hcase
  have base : SimRel (processEvent pIso now sP .endElement) sP := by
    rcases hcase with hc | hc
    · rw [pe_end_cons_other pIso now sP hc (by intro h; cases h)]
      exact ⟨rfl, rfl, rfl, rfl, rfl, Or.inr hc⟩
    · rw [pe_end_nil pIso now sP hc]
      exact ⟨rfl, rfl, rfl, rfl, rfl, Or.inl rfl⟩
  have key : SimRel
      (processEvents pIso now s0 (docEvents
        ([XmlEvent.startElement "statistics" ra] ++ P ++
          ([XmlEvent.startElement u ua] ++ texts.map XmlEvent.characters ++
            [XmlEvent.endElement]) ++ S ++ [XmlEvent.endElement])))
      (processEvents pIso now s0 (docEvents
        ([XmlEvent.startElement "statistics" ra] ++ P ++ S ++
          [XmlEvent.endElement]))) := by
    rw [processEvents_docEvents, processEvents_docEvents]
    simp only [processEvents_append, processEvents_singleton]
    rw [hsstat, ← hsP, hstart_u, htexts]
    exact simrel_step pIso now .endDocument _ _
      (simrel_step pIso now .endElement _ _
        (simrel_steps pIso now S _ _ base))
  obtain ⟨_, _, _, h4, h5, _⟩ := key
  exact load_days_congr pIso now ⟨[], none⟩ h4 h5

theorem c8_witness :
    Balanced [XmlEvent.startElement "day" [⟨"date", "A"⟩],
      XmlEvent.endElement] ∧
    StatisticsElement.from_name "foo" = none ∧
    load_days cIso dtOther ⟨[], none⟩ (docEvents
      ([XmlEvent.startElement "statistics" []] ++
        [XmlEvent.startElement "day" [⟨"date", "A"⟩],
          XmlEvent.endElement] ++
        ([XmlEvent.startElement "foo" []] ++
          ["hi"].map XmlEvent.characters ++ [XmlEvent.endElement]) ++
        [] ++ [XmlEvent.endElement])) =
    load_days cIso dtOther ⟨[], none⟩ (docEvents
      ([XmlEvent.startElement "statistics" []] ++
        [XmlEvent.startElement "day" [⟨"date", "A"⟩],
          XmlEvent.endElement] ++ [] ++ [XmlEvent.endElement])) :=
  ⟨Balanced.elem "day" [⟨"date", "A"⟩] Balanced.nil Balanced.nil,
    by decide,
    c8_unknown_element_transparent cIso dtOther [] [] "foo" ["hi"]
      [XmlEvent.startElement "day" [⟨"date", "A"⟩], XmlEvent.endElement] []
      (Balanced.elem "day" [⟨"date", "A"⟩] Balanced.nil Balanced.nil)
      (by decide)⟩

/-- Claim C9: a load never removes or replaces `all_days` entries (it is
append-only); `today` is a write-once slot per object, surviving any
further load once set; and a second invocation of the load with the same
document on the same object appends the document's days again while
`today` keeps the value set during the first load. -/
theorem c9_append_only_write_once (pIso : String → Option DateTime)
    (now : DateTime) :
    (∀ (obj : StatisticsObj) (events : List XmlEvent),
      ∃ suffix, (load_days pIso now obj events).all_days =
        obj.all_days ++ suffix) ∧
    (∀ (obj : StatisticsObj) (events : List XmlEvent) (t : Day),
      obj.today = some t → (load_days pIso now obj events).today = some t) ∧
    (∀ events : List XmlEvent,
      (load_days pIso now (load_days pIso now ⟨[], none⟩ events)
          events).today =
        (load_days pIso now ⟨[], none⟩ events).today ∧
      (load_days pIso now (load_days pIso now ⟨[], none⟩ events)
          events).all_days =
        (load_days pIso now ⟨[], none⟩ events).all_days ++
          (processEvents pIso now (initLoader ⟨[], none⟩)
            events).all_days) := by
  refine ⟨?_, ?_, ?_⟩
  · intro obj events
    obtain ⟨delta, e1, _, _, _, _, _, _, _⟩ :=
      process_frame pIso now events (initLoader obj) (initLoader obj)
        rfl rfl rfl rfl
    rcases htod : (processEvents pIso now (initLoader obj) events).today
      with _ | t
    · refine ⟨delta ++ [⟨now, 0, 0⟩], ?_⟩
      rw [load_days_all_today, htod]
      show (processEvents pIso now (initLoader obj) events).all_days ++
        [⟨now, 0, 0⟩] = obj.all_days ++ (delta ++ [⟨now, 0, 0⟩])
      rw [e1, List.append_assoc]
      rfl
    · refine ⟨delta, ?_⟩
      rw [load_days_all_today, htod]
      show (processEvents pIso now (initLoader obj) events).all_days =
        obj.all_days ++ delta
      rw [e1]
      rfl
  · intro obj events t ht
    obtain ⟨delta, _, _, e3, _, _, _, _, _⟩ :=
      process_frame pIso now events (initLoader obj) (initLoader obj)
        rfl rfl rfl rfl
    have htod : (processEvents pIso now (initLoader obj) events).today =
        some t := by
      rw [e3]
      show delta.foldl (todayUpd now) obj.today = some t
      rw [ht]
      exact foldl_todayUpd_some now t delta
    rw [load_days_all_today, htod]
    rfl
  · intro events
    set r1 := load_days pIso now ⟨[], none⟩ events with hr1
    have hsome : ∃ t, r1.today = some t := by
      rw [hr1, load_days_all_today]
      rcases htod : (processEvents pIso now (initLoader ⟨[], none⟩)
        events).today with _ | t
      · exact ⟨⟨now, 0, 0⟩, rfl⟩
      · exact ⟨t, rfl⟩
    obtain ⟨t, ht⟩ := hsome
    obtain ⟨delta, e1, e2, e3, _, _, _, _, _⟩ :=
      process_frame pIso now events (initLoader r1)
        (initLoader ⟨[], none⟩) rfl rfl rfl rfl
    have htod2 : (processEvents pIso now (initLoader r1) events).today =
        some t := by
      rw [e3]
      show delta.foldl (todayUpd now) r1.today = some t
      rw [ht]
      exact foldl_todayUpd_some now t delta
    have hdocdays : (processEvents pIso now (initLoader ⟨[], none⟩)
        events).all_days = delta := by
      rw [e2]
      rfl
    constructor
    · rw [load_days_all_today, htod2]
      show some t = r1.today
      exact ht.symm
    · rw [load_days_all_today, htod2]
      show (processEvents pIso now (initLoader r1) events).all_days =
        r1.all_days ++ (processEvents pIso now (initLoader ⟨[], none⟩)
          events).all_days
      rw [e1, hdocdays]
      rfl

theorem c9_witness :
    (∃ suffix,
      (load_days cIso dtOther ⟨[⟨dtA, 1, 2⟩], some ⟨dtA, 1, 2⟩⟩
        (docEvents docPlainDay)).all_days = [⟨dtA, 1, 2⟩] ++ suffix) ∧
    (load_days cIso dtOther ⟨[⟨dtA, 1, 2⟩], some ⟨dtA, 1, 2⟩⟩
      (docEvents docPlainDay)).today = some ⟨dtA, 1, 2⟩ ∧
    (load_days cIso dtOther
        (load_days cIso dtOther ⟨[], none⟩ (docEvents docPlainDay))
        (docEvents docPlainDay)).today =
      (load_days cIso dtOther ⟨[], none⟩ (docEvents docPlainDay)).today ∧
    (load_days cIso dtOther
        (load_days cIso dtOther ⟨[], none⟩ (docEvents docPlainDay))
        (docEvents docPlainDay)).all_days =
      (load_days cIso dtOther ⟨[], none⟩
        (docEvents docPlainDay)).all_days ++
        (processEvents cIso dtOther (initLoader ⟨[], none⟩)
          (docEvents docPlainDay)).all_days :=
  ⟨(c9_append_only_write_once cIso dtOther).1 ⟨[⟨dtA, 1, 2⟩],
      some ⟨dtA, 1, 2⟩⟩ (docEvents docPlainDay),
    (c9_append_only_write_once cIso dtOther).2.1 ⟨[⟨dtA, 1, 2⟩],
      some ⟨dtA, 1, 2⟩⟩ (docEvents docPlainDay) ⟨dtA, 1, 2⟩ rfl,
    ((c9_append_only_write_once cIso dtOther).2.2
      (docEvents docPlainDay)).1,
    ((c9_append_only_write_once cIso dtOther).2.2
      (docEvents docPlainDay)).2⟩

end Flowtime
